import Mathlib

/-!
Verification of the PaperMirror stylometric analysis core.

Strings are modelled as lists of characters (`Str`); each definition below is a
direct shallow embedding of the corresponding TypeScript function from
`src/utils/analysis` (text.ts, mirrorScore.ts, citationHints.ts) and the
metrics module. JavaScript numbers are modelled as exact rationals, and
JavaScript regular-expression scans are modelled by explicit scanners with the
same leftmost-match, greedy-with-backtracking semantics on the pattern shapes
the source uses.
-/

namespace PaperMirror

abbrev Str := List Char

/-- JavaScript whitespace (the set used by String.trim and regex \s):
space, tab, LF, CR, VT, FF, NBSP, BOM, line/paragraph separators and the
Unicode space separators. -/
def isWS (c : Char) : Bool :=
  c == ' ' || c == '\t' || c == '\n' || c == '\r' ||
  c == '\x0b' || c == '\x0c' ||
  c.toNat == 0xa0 || c.toNat == 0xfeff || c.toNat == 0x1680 ||
  (decide (0x2000 ≤ c.toNat) && decide (c.toNat ≤ 0x200a)) ||
  c.toNat == 0x2028 || c.toNat == 0x2029 ||
  c.toNat == 0x202f || c.toNat == 0x205f || c.toNat == 0x3000

/-- Horizontal whitespace, the class [ \t] of the source's whitespace
collapsing step. -/
def isHWS (c : Char) : Bool :=
  c == ' ' || c == '\t'

/-- Step 1 of normalizeText: replace every "\r\n" by "\n"
(text.replace(/\r\n/g, '\n')). -/
def replCRLF : Str → Str
  | [] => []
  | [c] => [c]
  | c :: d :: rest =>
    if c = '\r' ∧ d = '\n' then '\n' :: replCRLF rest
    else c :: replCRLF (d :: rest)

/-- Step 2 of normalizeText: replace every remaining "\r" by "\n"
(text.replace(/\r/g, '\n')). -/
def crToLf (c : Char) : Char :=
  if c = '\r' then '\n' else c

/-- Step 3 of normalizeText: collapse runs of three or more newlines to
exactly two (text.replace(/\n{3,}/g, '\n\n')).  `k` is the number of
pending newlines already read. -/
def cnGo : Nat → Str → Str
  | k, [] => List.replicate (min k 2) '\n'
  | k, c :: rest =>
    if c = '\n' then cnGo (k + 1) rest
    else List.replicate (min k 2) '\n' ++ c :: cnGo 0 rest

/-- Step 4 of normalizeText: collapse every run of horizontal whitespace to a
single space (text.replace(/[ \t]+/g, ' ')).  `flag` records whether a run is
pending. -/
def csGo : Bool → Str → Str
  | flag, [] => if flag then [' '] else []
  | flag, c :: rest =>
    if isHWS c then csGo true rest
    else (if flag then [' ', c] else [c]) ++ csGo false rest

/-- Remove trailing JavaScript whitespace. -/
def dropTrailWS (s : Str) : Str :=
  (List.dropWhile isWS s.reverse).reverse

/-- String.prototype.trim: remove leading and trailing whitespace. -/
def trimWS (s : Str) : Str :=
  dropTrailWS (List.dropWhile isWS s)

/-- normalizeText from text.ts: unify line endings, cap blank lines at one,
collapse horizontal whitespace, and trim. -/
def normalizeText (s : Str) : Str :=
  trimWS (csGo false (cnGo 0 (List.map crToLf (replCRLF s))))

/-- The Chinese sentence-terminal punctuation 。？！ used by the segmenter. -/
def isTerminalCN (c : Char) : Bool :=
  c == '。' || c == '？' || c == '！'

/-- normalized.split(/(?<=[。？！])/): split immediately after each terminal
character, keeping the terminator; like the JavaScript split, no empty part is
produced after a terminator that ends the string.  `acc` holds the current
part reversed. -/
def splitAT (acc : Str) : Str → List Str
  | [] => [acc.reverse]
  | c :: rest =>
    if isTerminalCN c then
      match rest with
      | [] => [(c :: acc).reverse]
      | _ :: _ => (c :: acc).reverse :: splitAT [] rest
    else splitAT (c :: acc) rest

/-- The test /^#+\s/: one or more '#' followed by a whitespace character. -/
def startsWithHeading (s : Str) : Bool :=
  (s.head? == some '#') &&
    (match (List.dropWhile (fun c => c == '#') s).head? with
     | some c => isWS c
     | none => false)

/-- A segmented sentence: retained text plus its 0-based index. -/
structure Sentence where
  text : Str
  index : Nat
deriving DecidableEq

/-- The retention loop of splitSentencesCN: trim each part, drop empty parts,
Markdown headings and fragments shorter than two characters, and number the
survivors consecutively from `i`. -/
def buildSentences : Nat → List Str → List Sentence
  | _, [] => []
  | i, p :: ps =>
    let t := trimWS p
    if t.isEmpty then buildSentences i ps
    else if startsWithHeading t then buildSentences i ps
    else if t.length < 2 then buildSentences i ps
    else { text := t, index := i } :: buildSentences (i + 1) ps

/-- splitSentencesCN from text.ts. -/
def splitSentencesCN (s : Str) : List Sentence :=
  buildSentences 0 (splitAT [] (normalizeText s))

/-- isMarkdownHeading from text.ts. -/
def isMarkdownHeading (line : Str) : Bool :=
  startsWithHeading (trimWS line)

/-- getBodyText from text.ts: normalize, drop Markdown-heading lines, rejoin
with newlines and trim. -/
def getBodyText (s : Str) : Str :=
  trimWS (List.intercalate ['\n']
    (((normalizeText s).splitOn '\n').filter (fun l => !isMarkdownHeading l)))

/-! ### Invariants of normalized text, used to prove idempotence -/

/-- No carriage return occurs in the string. -/
def noCR (s : Str) : Bool :=
  s.all (fun c => c ≠ '\r')

/-- No run of three or more newlines occurs; `k` counts pending newlines
already read. -/
def lfOK : Nat → Str → Bool
  | _, [] => true
  | k, c :: rest =>
    if c = '\n' then decide (k < 2) && lfOK (k + 1) rest else lfOK 0 rest

/-- Every horizontal-whitespace character is a single space that is not
preceded by horizontal whitespace; `flag` records whether the previous
character was horizontal whitespace. -/
def hwsOK : Bool → Str → Bool
  | _, [] => true
  | flag, c :: rest =>
    if isHWS c then (c == ' ') && !flag && hwsOK true rest else hwsOK false rest

/-- The head of the string, if any, fails the predicate `p`. -/
def headOK (p : Char → Bool) : Str → Bool
  | [] => true
  | c :: _ => !p c

/-! ### Mirror score (mirrorScore.ts); JavaScript numbers are exact rationals -/

/-- Math.round: round half toward positive infinity. -/
def jsRound (q : ℚ) : ℤ :=
  ⌊q + 1 / 2⌋

/-- Math.round(x * 10) / 10: round to one decimal place. -/
def round1 (q : ℚ) : ℚ :=
  (jsRound (q * 10) : ℚ) / 10

/-- Math.round(x * 100) / 100: round to two decimal places. -/
def round2 (q : ℚ) : ℚ :=
  (jsRound (q * 100) : ℚ) / 100

/-- The sentenceLength component of DetailedMetrics. -/
structure SentenceLengthStats where
  mean : ℚ
  p50 : ℚ
  p90 : ℚ
  longRate50 : ℚ
deriving DecidableEq

/-- The punctuationDensity component of DetailedMetrics. -/
structure PunctuationDensity where
  comma : ℚ
  semicolon : ℚ
  parenthesis : ℚ
deriving DecidableEq

/-- The connectorCounts component of DetailedMetrics. -/
structure ConnectorCounts where
  causal : ℚ
  adversative : ℚ
  additive : ℚ
  emphatic : ℚ
  total : ℚ
deriving DecidableEq

/-- The templateCounts component of DetailedMetrics. -/
structure TemplateCounts where
  count : ℚ
  perThousandChars : ℚ
deriving DecidableEq

/-- The per-document style profile produced by calculateMetrics. -/
structure DetailedMetrics where
  sentenceLength : SentenceLengthStats
  punctuationDensity : PunctuationDensity
  connectorCounts : ConnectorCounts
  templateCounts : TemplateCounts
  textLengthChars : ℚ
  sentenceCount : ℚ
deriving DecidableEq

/-- The weights record of calculateMirrorScore. -/
structure Weights where
  sentence : ℚ
  connectors : ℚ
  punctuation : ℚ
  templates : ℚ
deriving DecidableEq

/-- DEFAULT_WEIGHTS from mirrorScore.ts. -/
def DEFAULT_WEIGHTS : Weights :=
  { sentence := 0.4, connectors := 0.25, punctuation := 0.15, templates := 0.2 }

/-- SENTENCE_LENGTH_MAX_EXPECTED from mirrorScore.ts. -/
structure SentenceLengthMax where
  mean : ℚ
  percentile : ℚ
  p90 : ℚ
  longRate : ℚ

def SENTENCE_LENGTH_MAX_EXPECTED : SentenceLengthMax :=
  { mean := 50, percentile := 50, p90 := 100, longRate := 100 }

/-- PUNCTUATION_MAX_EXPECTED from mirrorScore.ts. -/
structure PunctuationMax where
  comma : ℚ
  semicolon : ℚ
  parenthesis : ℚ

def PUNCTUATION_MAX_EXPECTED : PunctuationMax :=
  { comma := 30, semicolon := 10, parenthesis := 20 }

def TEMPLATE_MAX_EXPECTED : ℚ := 5

/-- normalizedDiff from mirrorScore.ts: 0 for identical values, 1 at or beyond
the maximal expected difference. -/
def normalizedDiff (a b maxExpected : ℚ) : ℚ :=
  if maxExpected = 0 then 0 else min (|a - b| / maxExpected) 1

/-- sentenceLengthDistance from mirrorScore.ts. -/
def sentenceLengthDistance (target sample : SentenceLengthStats) : ℚ :=
  let meanDiff := normalizedDiff target.mean sample.mean SENTENCE_LENGTH_MAX_EXPECTED.mean
  let p50Diff := normalizedDiff target.p50 sample.p50 SENTENCE_LENGTH_MAX_EXPECTED.percentile
  let p90Diff := normalizedDiff target.p90 sample.p90 SENTENCE_LENGTH_MAX_EXPECTED.p90
  let longRateDiff :=
    normalizedDiff target.longRate50 sample.longRate50 SENTENCE_LENGTH_MAX_EXPECTED.longRate
  meanDiff * 0.4 + p50Diff * 0.3 + p90Diff * 0.2 + longRateDiff * 0.1

/-- connectorDistance from mirrorScore.ts: L1 distance between category
proportions, halved and clamped to 1; a zero total stands in as 1
(JavaScript target.total || 1). -/
def connectorDistance (target sample : ConnectorCounts) : ℚ :=
  let targetTotal := if target.total = 0 then 1 else target.total
  let sampleTotal := if sample.total = 0 then 1 else sample.total
  let l1Distance :=
    |target.causal / targetTotal - sample.causal / sampleTotal| +
    |target.adversative / targetTotal - sample.adversative / sampleTotal| +
    |target.additive / targetTotal - sample.additive / sampleTotal| +
    |target.emphatic / targetTotal - sample.emphatic / sampleTotal|
  min (l1Distance / 2) 1

/-- punctuationDistance from mirrorScore.ts. -/
def punctuationDistance (target sample : PunctuationDensity) : ℚ :=
  let commaDiff := normalizedDiff target.comma sample.comma PUNCTUATION_MAX_EXPECTED.comma
  let semicolonDiff :=
    normalizedDiff target.semicolon sample.semicolon PUNCTUATION_MAX_EXPECTED.semicolon
  let parenthesisDiff :=
    normalizedDiff target.parenthesis sample.parenthesis PUNCTUATION_MAX_EXPECTED.parenthesis
  commaDiff * 0.5 + semicolonDiff * 0.25 + parenthesisDiff * 0.25

/-- templateDistance from mirrorScore.ts. -/
def templateDistance (target sample : TemplateCounts) : ℚ :=
  normalizedDiff target.perThousandChars sample.perThousandChars TEMPLATE_MAX_EXPECTED

/-- calculateMirrorScore from mirrorScore.ts: weighted distance turned into a
0-100 score rounded to one decimal. -/
def calculateMirrorScore (target sample : DetailedMetrics) (weights : Weights) : ℚ :=
  let sentenceDist := sentenceLengthDistance target.sentenceLength sample.sentenceLength
  let connectorDist := connectorDistance target.connectorCounts sample.connectorCounts
  let punctuationDist := punctuationDistance target.punctuationDensity sample.punctuationDensity
  let templateDist := templateDistance target.templateCounts sample.templateCounts
  let weightedDistance :=
    sentenceDist * weights.sentence + connectorDist * weights.connectors +
    punctuationDist * weights.punctuation + templateDist * weights.templates
  round1 ((1 - weightedDistance) * 100)

/-- The MirrorScore record. -/
structure MirrorScore where
  draftToSample : ℚ
  standardToSample : ℚ
  improvement : ℚ
  weights : Weights
deriving DecidableEq

/-- generateMirrorScore from mirrorScore.ts. -/
def generateMirrorScore (sample draft standard : DetailedMetrics)
    (weights : Weights) : MirrorScore :=
  let draftToSample := calculateMirrorScore draft sample weights
  let standardToSample := calculateMirrorScore standard sample weights
  { draftToSample := draftToSample
    standardToSample := standardToSample
    improvement := round1 (standardToSample - draftToSample)
    weights := weights }

/-! ### Fidelity guardrails (citationHints.ts): token extraction.

JavaScript global regex scans are modelled by explicit scanners: a scan tries
a match at each position, moves one character on failure, and resumes after
the match on success; each pattern matcher implements the greedy,
backtracking semantics of its concrete regular expression. -/

/-- Letters or digits (ASCII). -/
def isAlnum (c : Char) : Bool :=
  c.isAlpha || c.isDigit

/-- JavaScript regex word character \w: ASCII letters, digits, underscore. -/
def isWordChar (c : Char) : Bool :=
  isAlnum c || c == '_'

/-- A global regex scan for a pattern without boundary context: `f` attempts
a match at the current position and returns the match length minus one; on
failure the scan moves one character, on success it resumes after the match.
`fuel` only forces structural termination: every step consumes at least one
character, so any fuel of at least the string length gives the full scan. -/
def scanGF (f : Str → Option Nat) : Nat → Str → List Str
  | _, [] => []
  | 0, _ :: _ => []
  | fuel + 1, c :: rest =>
    match f (c :: rest) with
    | none => scanGF f fuel rest
    | some k => List.take (k + 1) (c :: rest) :: scanGF f fuel (List.drop k rest)

def scanG (f : Str → Option Nat) (s : Str) : List Str :=
  scanGF f s.length s

/-- Matcher for /\d+(?:\.\d+)?%/ at the current position. -/
def pctExtra : Str → Option Nat
  | [] => none
  | c :: rest =>
    if !c.isDigit then none
    else
      let d1 := List.takeWhile Char.isDigit rest
      match List.drop d1.length rest with
      | '.' :: r2 =>
        let d2 := List.takeWhile Char.isDigit r2
        if d2.isEmpty then none
        else
          match List.drop d2.length r2 with
          | '%' :: _ => some (d1.length + 1 + d2.length + 1)
          | _ => none
      | '%' :: _ => some (d1.length + 1)
      | _ => none

/-- Matcher for /\d+(?:\.\d+)?[eE][+-]?\d+/ at the current position. -/
def sciExtra : Str → Option Nat
  | [] => none
  | c :: rest =>
    if !c.isDigit then none
    else
      let d1 := List.takeWhile Char.isDigit rest
      let tryExp : Str → Nat → Option Nat := fun s consumed =>
        match s with
        | e :: r2 =>
          if e == 'e' || e == 'E' then
            let sr : Nat × Str := match r2 with
              | s' :: r3' => if s' == '+' || s' == '-' then (1, r3') else (0, r2)
              | [] => (0, r2)
            let d3 := List.takeWhile Char.isDigit sr.2
            if d3.isEmpty then none else some (consumed + 1 + sr.1 + d3.length)
          else none
        | [] => none
      match List.drop d1.length rest with
      | '.' :: r2 =>
        let d2 := List.takeWhile Char.isDigit r2
        if d2.isEmpty then none
        else
          match tryExp (List.drop d2.length r2) (d1.length + 1 + d2.length) with
          | some n => some n
          | none => none
      | after1 => tryExp after1 d1.length

/-- The ordered unit alternation of the unit-suffix number pattern. -/
def UNIT_SUFFIXES : List Str :=
  ["mm".data, "cm".data, "m".data, "km".data, "mg".data, "g".data, "kg".data,
   "ml".data, "L".data, "℃".data, "°C".data, "Hz".data, "kHz".data,
   "MHz".data, "GHz".data, "ms".data, "s".data, "min".data, "h".data]

/-- Case-insensitive test that `pat` occurs at the head of `s`. -/
def ciHasAhead (pat s : Str) : Bool :=
  List.map Char.toLower (List.take pat.length s) == List.map Char.toLower pat

/-- First unit of the alternation matching at the head of `s`, with its
length. -/
def findUnit (s : Str) : Option Nat :=
  (UNIT_SUFFIXES.find? (fun u => ciHasAhead u s)).map List.length

/-- Matcher for /\d+(?:\.\d+)?(?:mm|cm|m|...)/i at the current position. -/
def unitExtra : Str → Option Nat
  | [] => none
  | c :: rest =>
    if !c.isDigit then none
    else
      let d1 := List.takeWhile Char.isDigit rest
      match List.drop d1.length rest with
      | '.' :: r2 =>
        let d2 := List.takeWhile Char.isDigit r2
        if d2.isEmpty then
          match findUnit ('.' :: r2) with
          | some u => some (d1.length + u)
          | none => none
        else
          match findUnit (List.drop d2.length r2) with
          | some u => some (d1.length + 1 + d2.length + u)
          | none =>
            match findUnit ('.' :: r2) with
            | some u => some (d1.length + u)
            | none => none
      | after1 =>
        match findUnit after1 with
        | some u => some (d1.length + u)
        | none => none

/-- Matcher for /\d+\.\d+/ at the current position. -/
def decExtra : Str → Option Nat
  | [] => none
  | c :: rest =>
    if !c.isDigit then none
    else
      let d1 := List.takeWhile Char.isDigit rest
      match List.drop d1.length rest with
      | '.' :: r2 =>
        let d2 := List.takeWhile Char.isDigit r2
        if d2.isEmpty then none else some (d1.length + 1 + d2.length)
      | _ => none

/-- Matcher for /\d{2,}/ at the current position. -/
def intExtra : Str → Option Nat
  | [] => none
  | c :: rest =>
    if !c.isDigit then none
    else
      let d1 := List.takeWhile Char.isDigit rest
      if d1.isEmpty then none else some d1.length

/-- match.toLowerCase(). -/
def toLowerStr (s : Str) : Str :=
  s.map Char.toLower

/-- .replace(/\.0+$/, ''): strip a trailing dot followed only by zeros. -/
def stripDotZeros (s : Str) : Str :=
  let r := s.reverse
  let z := List.takeWhile (fun c => c == '0') r
  if !z.isEmpty && ((List.drop z.length r).head? == some '.') then
    (List.drop (z.length + 1) r).reverse
  else s

/-- The normalization applied to every extracted number token. -/
def normalizeNum (s : Str) : Str :=
  stripDotZeros (toLowerStr s)

/-- JavaScript Set insertion: append if not already present. -/
def addUniq (l : List Str) (x : Str) : List Str :=
  if x ∈ l then l else l ++ [x]

def addAllUniq (l : List Str) (xs : List Str) : List Str :=
  xs.foldl addUniq l

/-- extractNumbers from citationHints.ts: run the five number patterns in
order over the text and collect the normalized matches as an
insertion-ordered set. -/
def extractNumbers (text : Str) : List Str :=
  [pctExtra, sciExtra, unitExtra, decExtra, intExtra].foldl
    (fun acc f => addAllUniq acc ((scanG f text).map normalizeNum)) []

/-- Word-boundary test before the current position: `prev` is the preceding
character, none at the start of the text. -/
def bdryOK : Option Char → Bool
  | none => true
  | some p => !isWordChar p

/-- A global regex scan for a pattern that begins with a word boundary:
a match is attempted only when the preceding character is not a word
character.  `fuel` only forces structural termination, as in scanGF. -/
def scanBF (f : Str → Option Nat) : Nat → Option Char → Str → List Str
  | _, _, [] => []
  | 0, _, _ :: _ => []
  | fuel + 1, prev, c :: rest =>
    if bdryOK prev then
      match f (c :: rest) with
      | none => scanBF f fuel (some c) rest
      | some k =>
        List.take (k + 1) (c :: rest) ::
          scanBF f fuel (some ((c :: rest).getD k 'x')) (List.drop k rest)
    else scanBF f fuel (some c) rest

def scanB (f : Str → Option Nat) (prev : Option Char) (s : Str) : List Str :=
  scanBF f s.length prev s

/-- Matcher for /\b[A-Z]{2,}\d*\b/ after the leading boundary. -/
def acro1 : Str → Option Nat
  | [] => none
  | c :: rest =>
    if !c.isUpper then none
    else
      let u := List.takeWhile Char.isUpper rest
      if u.isEmpty then none
      else
        let afterU := List.drop u.length rest
        let d := List.takeWhile Char.isDigit afterU
        match (List.drop d.length afterU).head? with
        | some x => if isWordChar x then none else some (u.length + d.length)
        | none => some (u.length + d.length)

/-- Matcher for /\b[A-Z][a-zA-Z]*[A-Z][a-zA-Z]*\d*\b/ after the leading
boundary. -/
def acro2 : Str → Option Nat
  | [] => none
  | c :: rest =>
    if !c.isUpper then none
    else
      let l := List.takeWhile Char.isAlpha rest
      if !l.any Char.isUpper then none
      else
        let afterL := List.drop l.length rest
        let d := List.takeWhile Char.isDigit afterL
        match (List.drop d.length afterL).head? with
        | some x => if isWordChar x then none else some (l.length + d.length)
        | none => some (l.length + d.length)

/-- The optional suffix group (?:-[A-Z0-9][a-zA-Z0-9]*)? of the third acronym
pattern together with the trailing word boundary, applied to the remainder
after the lowercase run: the extra characters consumed by the group (0 when
the group is skipped and the boundary sits after the lowercase run), or none
when no boundary can be found at all. -/
def acro3Group : Str → Option Nat
  | [] => some 0
  | x :: r2 =>
    if isWordChar x then none
    else if x == '-' then
      match r2 with
      | [] => some 0
      | y :: r3 =>
        if y.isUpper || y.isDigit then
          let sfx := List.takeWhile isAlnum r3
          match (List.drop sfx.length r3).head? with
          | some z => if isWordChar z then some 0 else some (2 + sfx.length)
          | none => some (2 + sfx.length)
        else some 0
    else some 0

/-- Matcher for /\b[A-Z][a-z]+(?:-[A-Z0-9][a-zA-Z0-9]*)?\b/ after the leading
boundary. -/
def acro3 : Str → Option Nat
  | [] => none
  | c :: rest =>
    if !c.isUpper then none
    else
      let ls := List.takeWhile Char.isLower rest
      if ls.isEmpty then none
      else (acro3Group (List.drop ls.length rest)).map (ls.length + ·)

/-- The stoplist of common capitalized English words excluded by
extractAcronyms. -/
def ACRONYM_STOPLIST : List Str :=
  ["The".data, "This".data, "That".data, "These".data, "Those".data,
   "With".data, "From".data, "Into".data, "Upon".data]

/-- The per-match retention step of extractAcronyms: keep matches of length
at least two that are not stoplisted, as an insertion-ordered set. -/
def acroAdd (acc : List Str) (m : Str) : List Str :=
  if 2 ≤ m.length ∧ ¬ m ∈ ACRONYM_STOPLIST then addUniq acc m else acc

/-- extractAcronyms from citationHints.ts: run the three acronym patterns in
order over the text. -/
def extractAcronyms (text : Str) : List Str :=
  [acro1, acro2, acro3].foldl
    (fun acc f => (scanB f none text).foldl acroAdd acc) []

/-- calculateRetentionRate from citationHints.ts. -/
def calculateRetentionRate (original rewritten : List Str) : ℚ :=
  if original.length = 0 then 100
  else
    round1 (((original.countP (fun x => decide (x ∈ rewritten)) : ℚ) /
      (original.length : ℚ)) * 100)

/-- findMissingItems from citationHints.ts. -/
def findMissingItems (original rewritten : List Str) : List Str :=
  original.filter (fun x => decide (x ∉ rewritten))

/-- text.includes(token): substring containment. -/
def containsSub (hay needle : Str) : Bool :=
  hay.tails.any (fun t => needle.isPrefixOf t)

/-- findSentenceIndex from citationHints.ts: index of the first sentence
containing the token, or -1. -/
def findSentenceIndex (text token : Str) : Int :=
  match (splitSentencesCN text).find? (fun s => containsSub s.text token) with
  | some s => (s.index : Int)
  | none => -1

inductive AlertType where
  | number_loss
  | acronym_change
  | unit_loss
deriving DecidableEq

structure FidelityAlert where
  type : AlertType
  sentenceIndex : Int
  detail : Str
deriving DecidableEq

structure FidelityGuardrails where
  numberRetentionRate : ℚ
  acronymRetentionRate : ℚ
  alerts : List FidelityAlert
deriving DecidableEq

/-- calculateFidelityGuardrails from citationHints.ts. -/
def calculateFidelityGuardrails (draftText standardText : Str) :
    FidelityGuardrails :=
  let draftNumbers := extractNumbers draftText
  let standardNumbers := extractNumbers standardText
  let draftAcronyms := extractAcronyms draftText
  let standardAcronyms := extractAcronyms standardText
  let numberRetentionRate := calculateRetentionRate draftNumbers standardNumbers
  let acronymRetentionRate := calculateRetentionRate draftAcronyms standardAcronyms
  let missingNumbers := findMissingItems draftNumbers standardNumbers
  let numberAlerts := (missingNumbers.take 5).map (fun num =>
    { type := AlertType.number_loss
      sentenceIndex := findSentenceIndex draftText num
      detail := "缺失数字: ".data ++ num })
  let missingAcronyms := findMissingItems draftAcronyms standardAcronyms
  let acronymAlerts := (missingAcronyms.take 5).map (fun acronym =>
    { type := AlertType.acronym_change
      sentenceIndex := findSentenceIndex draftText acronym
      detail := "缺失缩略词: ".data ++ acronym })
  { numberRetentionRate := numberRetentionRate
    acronymRetentionRate := acronymRetentionRate
    alerts := numberAlerts ++ acronymAlerts }

/-! ### A small regex engine for the literal/.*/\d+ patterns of the source.

The metrics module and the citation detector use regular expressions that are
concatenations of literal characters, the wildcard .* and \d+.  `greedyLen`
implements the backtracking semantics of such a pattern anchored at the
current position, preferring the longest consumption (greedy), and returns
the number of characters consumed. -/

inductive Tok where
  | lit (c : Char)
  | star
  | digits
deriving DecidableEq

/-- A string of literal pattern characters. -/
def lits (s : String) : List Tok :=
  s.data.map Tok.lit

/-- The wildcard . of a JavaScript regex matches anything but line
terminators. -/
def isDotChar (c : Char) : Bool :=
  !(c == '\n' || c == '\r' || c.toNat == 0x2028 || c.toNat == 0x2029)

/-- All suffixes of `s` reachable by consuming zero or more dot characters,
in order of increasing consumption. -/
def dotDrops : Str → List Str
  | [] => [[]]
  | c :: rest => (c :: rest) :: (if isDotChar c then dotDrops rest else [])

/-- All suffixes of `s` reachable by consuming one or more leading digits,
in order of increasing consumption. -/
def digitTails : Str → List Str
  | [] => []
  | c :: rest => if c.isDigit then rest :: digitTails rest else []

/-- Backtracking match of a token pattern at the head of `s`: the consumed
length of the greedy match, or none. -/
def greedyLen : List Tok → Str → Option Nat
  | [], _ => some 0
  | Tok.lit c :: ts, s =>
    match s with
    | d :: s' => if c == d then (greedyLen ts s').map (· + 1) else none
    | [] => none
  | Tok.star :: ts, s =>
    (dotDrops s).reverse.findSome? (fun t =>
      (greedyLen ts t).map (fun k => (s.length - t.length) + k))
  | Tok.digits :: ts, s =>
    (digitTails s).reverse.findSome? (fun t =>
      (greedyLen ts t).map (fun k => (s.length - t.length) + k))

/-- new RegExp(pattern).test(s): the pattern matches somewhere in `s`. -/
def reTest (ts : List Tok) (s : Str) : Bool :=
  s.tails.any (fun t => (greedyLen ts t).isSome)

/-- (s.match(new RegExp(pattern, 'g')) || []).length: the number of
non-overlapping leftmost matches; an empty match advances by one character.
`fuel` only forces structural termination. -/
def reCountF (ts : List Tok) : Nat → Str → Nat
  | _, [] => 0
  | 0, _ :: _ => 0
  | fuel + 1, c :: rest =>
    match greedyLen ts (c :: rest) with
    | none => reCountF ts fuel rest
    | some 0 => 1 + reCountF ts fuel rest
    | some (k + 1) => 1 + reCountF ts fuel (List.drop k rest)

def reCount (ts : List Tok) (s : Str) : Nat :=
  reCountF ts s.length s

/-- countPattern from the metrics module, string case: count non-overlapping
occurrences by indexOf scanning, advancing past each hit. -/
def countSubF (pat : Str) : Nat → Str → Nat
  | _, [] => 0
  | 0, _ :: _ => 0
  | fuel + 1, c :: rest =>
    if pat.isPrefixOf (c :: rest) then
      1 + countSubF pat fuel (List.drop (pat.length - 1) rest)
    else countSubF pat fuel rest

def countSub (text pat : Str) : Nat :=
  countSubF pat text.length text

/-! ### Metrics extractor (the style-metrics module) -/

/-- CONNECTOR_WORDS from the metrics module. -/
structure ConnectorWords where
  causal : List Str
  adversative : List Str
  additive : List Str
  emphatic : List Str

def CONNECTOR_WORDS : ConnectorWords :=
  { causal := ["因此".data, "所以".data, "由于".data, "因为".data, "故".data,
      "从而".data, "以致".data, "导致".data, "因而".data, "于是".data]
    adversative := ["然而".data, "但是".data, "不过".data, "尽管".data,
      "虽然".data, "却".data, "但".data, "可是".data, "反而".data, "相反".data]
    additive := ["此外".data, "另外".data, "同时".data, "并且".data, "而且".data,
      "以及".data, "再者".data, "还".data, "也".data, "又".data]
    emphatic := ["尤其".data, "特别".data, "值得注意的是".data,
      "需要指出的是".data, "显然".data, "明显".data, "重要的是".data,
      "关键是".data] }

/-- TEMPLATE_PHRASES from the metrics module, tokenized: the phrases are
literal except for three containing the wildcard .* . -/
def TEMPLATE_PHRASES : List (List Tok) :=
  [lits "本文首先", lits "本文其次", lits "本文最后", lits "本文提出",
   lits "综上所述", lits "总而言之", lits "总的来说",
   lits "众所周知", lits "不言而喻", lits "毋庸置疑",
   lits "近年来", lits "随着" ++ [Tok.star] ++ lits "的发展", lits "受到广泛关注",
   lits "具有重要意义", lits "具有重要的理论和实践价值",
   lits "研究表明", lits "结果表明", lits "实验表明",
   lits "进行了" ++ [Tok.star] ++ lits "研究",
   lits "开展了" ++ [Tok.star] ++ lits "工作"]

/-- percentile from the metrics module: linear interpolation between order
statistics of a sorted array. -/
def percentile (sortedArr : List ℚ) (p : ℚ) : ℚ :=
  if sortedArr.length = 0 then 0
  else
    let index := (p / 100) * ((sortedArr.length : ℚ) - 1)
    let lower := ⌊index⌋
    let upper := ⌈index⌉
    if lower = upper then sortedArr.getD lower.toNat 0
    else
      sortedArr.getD lower.toNat 0 +
        (sortedArr.getD upper.toNat 0 - sortedArr.getD lower.toNat 0) *
          (index - (lower : ℚ))

/-- mean from the metrics module. -/
def mean (arr : List ℚ) : ℚ :=
  if arr.length = 0 then 0 else arr.foldl (· + ·) 0 / (arr.length : ℚ)

/-- calculateMetrics from the metrics module. -/
def calculateMetrics (text : Str) : DetailedMetrics :=
  let bodyText := getBodyText text
  let sentences := splitSentencesCN text
  let textLength := bodyText.length
  let sentenceLengths := sentences.map (fun s => s.text.length)
  let sortedLengths := sentenceLengths.mergeSort (fun a b => decide (a ≤ b))
  let longSentences := sentenceLengths.filter (fun len => decide (50 < len))
  let sentenceLength : SentenceLengthStats :=
    { mean := round1 (mean (sentenceLengths.map (fun n => (n : ℚ))))
      p50 := round1 (percentile (sortedLengths.map (fun n => (n : ℚ))) 50)
      p90 := round1 (percentile (sortedLengths.map (fun n => (n : ℚ))) 90)
      longRate50 :=
        if 0 < sentenceLengths.length then
          round1 (((longSentences.length : ℚ) / (sentenceLengths.length : ℚ)) * 100)
        else 0 }
  let commaCount := countSub bodyText "，".data + countSub bodyText ",".data
  let semicolonCount := countSub bodyText "；".data + countSub bodyText ";".data
  let parenthesisCount := countSub bodyText "（".data + countSub bodyText "）".data +
    countSub bodyText "(".data + countSub bodyText ")".data
  let perThousand : ℚ := if 0 < textLength then 1000 / (textLength : ℚ) else 0
  let punctuationDensity : PunctuationDensity :=
    { comma := round1 ((commaCount : ℚ) * perThousand)
      semicolon := round1 ((semicolonCount : ℚ) * perThousand)
      parenthesis := round1 ((parenthesisCount : ℚ) * perThousand) }
  let causal : Nat := (CONNECTOR_WORDS.causal.map (countSub bodyText)).foldl (· + ·) 0
  let adversative : Nat := (CONNECTOR_WORDS.adversative.map (countSub bodyText)).foldl (· + ·) 0
  let additive : Nat := (CONNECTOR_WORDS.additive.map (countSub bodyText)).foldl (· + ·) 0
  let emphatic : Nat := (CONNECTOR_WORDS.emphatic.map (countSub bodyText)).foldl (· + ·) 0
  let connectorCounts : ConnectorCounts :=
    { causal := (causal : ℚ)
      adversative := (adversative : ℚ)
      additive := (additive : ℚ)
      emphatic := (emphatic : ℚ)
      total := ((causal + adversative + additive + emphatic : Nat) : ℚ) }
  let templateCount : Nat :=
    (TEMPLATE_PHRASES.map (fun p => reCount p bodyText)).foldl (· + ·) 0
  let templateCounts : TemplateCounts :=
    { count := (templateCount : ℚ)
      perThousandChars :=
        if 0 < textLength then
          round2 ((templateCount : ℚ) * 1000 / (textLength : ℚ))
        else 0 }
  { sentenceLength := sentenceLength
    punctuationDensity := punctuationDensity
    connectorCounts := connectorCounts
    templateCounts := templateCounts
    textLengthChars := (textLength : ℚ)
    sentenceCount := (sentences.length : ℚ) }

/-! ### Citation-need detector (citationHints.ts) -/

inductive CitationReason where
  | background
  | definition
  | method
  | comparison
  | statistic
deriving DecidableEq

/-- CITATION_PATTERNS from citationHints.ts, in Object.entries order, with
each pattern string tokenized (.* and \d+ are the only regex constructs
used). -/
def CITATION_PATTERNS : List (CitationReason × List (List Tok)) :=
  [(CitationReason.background,
    [lits "近年来", lits "广泛关注", lits "已被广泛应用", lits "已有研究表明",
     lits "文献报道", lits "研究发现", lits "前人研究", lits "现有研究",
     lits "大量研究", lits "学者们", lits "随着" ++ [Tok.star] ++ lits "的发展",
     lits "日益增长", lits "已成为", lits "普遍认为", lits "通常认为"]),
   (CitationReason.definition,
    [lits "定义为", lits "被定义为", lits "根据" ++ [Tok.star] ++ lits "标准",
     lits "按照" ++ [Tok.star] ++ lits "定义",
     lits "指标" ++ [Tok.star] ++ lits "定义",
     lits "协议", lits "规范", lits "标准规定", lits "国际标准",
     lits "国家标准", lits "行业标准"]),
   (CitationReason.method,
    [lits "采用" ++ [Tok.star] ++ lits "方法",
     lits "基于" ++ [Tok.star] ++ lits "模型",
     lits "使用" ++ [Tok.star] ++ lits "算法",
     lits "运用" ++ [Tok.star] ++ lits "技术",
     lits "借鉴" ++ [Tok.star] ++ lits "框架",
     lits "参考" ++ [Tok.star] ++ lits "设计",
     lits "引入" ++ [Tok.star] ++ lits "机制",
     lits "提出的" ++ [Tok.star] ++ lits "方法",
     lits "经典" ++ [Tok.star] ++ lits "算法",
     lits "传统" ++ [Tok.star] ++ lits "方法"]),
   (CitationReason.comparison,
    [lits "传统方法" ++ [Tok.star] ++ lits "存在",
     lits "现有方法" ++ [Tok.star] ++ lits "不足",
     lits "相比之下", lits "优于", lits "劣于", lits "对比", lits "比较",
     lits "相较于", lits "与" ++ [Tok.star] ++ lits "相比",
     lits "超过了", lits "不如"]),
   (CitationReason.statistic,
    [lits "占" ++ [Tok.star] ++ lits "比例",
     lits "增长了", lits "下降了", lits "大规模", lits "调查显示",
     lits "统计表明", lits "数据显示", lits "据统计",
     [Tok.digits] ++ lits "%" ++ [Tok.star] ++ lits "的",
     lits "约" ++ [Tok.digits], lits "超过" ++ [Tok.digits],
     lits "达到" ++ [Tok.digits]])]

/-- OWN_WORK_PATTERNS from citationHints.ts (all literal). -/
def OWN_WORK_PATTERNS : List (List Tok) :=
  [lits "本文提出", lits "本研究", lits "我们提出", lits "我们发现",
   lits "本工作", lits "本实验", lits "本文设计", lits "本文实现",
   lits "我们的方法", lits "我们的模型"]

/-- isOwnWork from citationHints.ts. -/
def isOwnWork (sentence : Str) : Bool :=
  OWN_WORK_PATTERNS.any (fun p => reTest p sentence)

/-- needsCitation from citationHints.ts: own-work sentences are skipped
before any category is tested; otherwise the first category with a matching
pattern wins. -/
def needsCitation (sentence : Str) : Option CitationReason :=
  if isOwnWork sentence then none
  else
    CITATION_PATTERNS.findSome? (fun rp =>
      if rp.2.any (fun p => reTest p sentence) then some rp.1 else none)

/-- CHINESE_TECH_SUFFIXES from citationHints.ts. -/
def CHINESE_TECH_SUFFIXES : List Str :=
  ["技术".data, "方法".data, "算法".data, "模型".data, "系统".data,
   "网络".data, "框架".data, "机制".data, "理论".data, "分析".data]

def isCurlyQuote (c : Char) : Bool :=
  c.toNat == 0x201c || c.toNat == 0x201d

/-- Matcher for the quoted-term pattern (curly quote, one or more non-quote
characters, curly quote) at the current position. -/
def quotedM : Str → Option Nat
  | [] => none
  | c :: rest =>
    if !isCurlyQuote c then none
    else
      let inner := List.takeWhile (fun d => !isCurlyQuote d) rest
      if inner.isEmpty then none
      else
        match (List.drop inner.length rest).head? with
        | some d => if isCurlyQuote d then some (inner.length + 1) else none
        | none => none

/-- The zero-or-more hyphenated groups of the English-term pattern
(?:-[A-Za-z0-9]+)*; `fuel` only forces structural termination. -/
def engHyphensF : Nat → Str → Nat
  | 0, _ => 0
  | fuel + 1, s =>
    match s with
    | '-' :: d :: rest2 =>
      if isAlnum d then
        let r := List.takeWhile isAlnum rest2
        2 + r.length + engHyphensF fuel (List.drop r.length rest2)
      else 0
    | _ => 0

/-- Matcher for /[A-Za-z][A-Za-z0-9]*(?:-[A-Za-z0-9]+)*/ at the current
position. -/
def engM : Str → Option Nat
  | [] => none
  | c :: rest =>
    if !c.isAlpha then none
    else
      let r1 := List.takeWhile isAlnum rest
      some (r1.length + engHyphensF rest.length (List.drop r1.length rest))

def isHan (c : Char) : Bool :=
  decide (0x4e00 ≤ c.toNat) && decide (c.toNat ≤ 0x9fa5)

/-- One attempt of the Chinese technical-term pattern with exactly `k` Han
characters before a suffix from the alternation. -/
def techTryK (s : Str) (k : Nat) : Option Nat :=
  if (List.take k s).length = k ∧ (List.take k s).all isHan then
    match CHINESE_TECH_SUFFIXES.find? (fun sfx => sfx.isPrefixOf (List.drop k s)) with
    | some sfx => some (k + sfx.length - 1)
    | none => none
  else none

/-- Matcher for the Chinese technical-term pattern
/[一-龥]{2,6}(?:技术|方法|...)/ at the current position: the greedy
quantifier tries six down to two characters. -/
def techM (s : Str) : Option Nat :=
  match s with
  | [] => none
  | c :: _ =>
    if !isHan c then none
    else [6, 5, 4, 3, 2].findSome? (techTryK s)

/-- The case-insensitive English stopword list of extractKeyTerms. -/
def ENGLISH_STOPWORDS : List Str :=
  ["the".data, "and".data, "for".data, "with".data, "from".data, "this".data,
   "that".data, "these".data, "those".data, "are".data, "was".data,
   "were".data, "been".data, "have".data, "has".data, "had".data]

/-- extractKeyTerms from citationHints.ts: quoted terms (quotes stripped),
English terms of length at least three that are not stopwords, and Chinese
technical terms; deduplicated in insertion order and capped at four. -/
def extractKeyTerms (sentence : Str) : List Str :=
  let quotedTerms :=
    (scanG quotedM sentence).map (fun m => m.filter (fun c => !isCurlyQuote c))
  let englishTerms :=
    (scanG engM sentence).filter (fun m =>
      3 ≤ m.length ∧ ¬ toLowerStr m ∈ ENGLISH_STOPWORDS)
  let techTerms := scanG techM sentence
  ((quotedTerms ++ englishTerms ++ techTerms).foldl addUniq []).take 4

/-- The reason-keyed query-suffix vocabularies of generateQueries. -/
structure ReasonSuffixes where
  cn : List Str
  en : List Str

def citationSuffixes : CitationReason → ReasonSuffixes
  | CitationReason.background =>
    { cn := ["综述".data, "研究进展".data, "发展现状".data],
      en := ["survey".data, "review".data, "overview".data] }
  | CitationReason.definition =>
    { cn := ["定义".data, "标准".data, "规范".data],
      en := ["definition".data, "standard".data, "specification".data] }
  | CitationReason.method =>
    { cn := ["方法".data, "算法".data, "技术".data],
      en := ["method".data, "algorithm".data, "technique".data] }
  | CitationReason.comparison =>
    { cn := ["对比".data, "比较研究".data, "评估".data],
      en := ["comparison".data, "benchmark".data, "evaluation".data] }
  | CitationReason.statistic =>
    { cn := ["统计".data, "调查".data, "数据分析".data],
      en := ["statistics".data, "survey data".data, "analysis".data] }

/-- generateQueries from citationHints.ts. -/
def generateQueries (sentence : Str) (reason : CitationReason) : List Str :=
  let keyTerms := extractKeyTerms sentence
  let reasonSuffixes := citationSuffixes reason
  let cnQueries :=
    ((keyTerms.take 2).map (fun term =>
      (reasonSuffixes.cn.take 1).map (fun suffix => term ++ ' ' :: suffix))).flatten
  let englishTerms := keyTerms.filter (fun t => t.any Char.isAlpha)
  let enQueries :=
    ((englishTerms.take 2).map (fun term =>
      (reasonSuffixes.en.take 1).map (fun suffix => term ++ ' ' :: suffix))).flatten
  let queries := cnQueries ++ enQueries
  let queries' :=
    if queries.isEmpty then
      [(sentence.take 20).filter
          (fun c => !(c == '，' || c == '。' || c == '？' || c == '！')) ++
        ' ' :: reasonSuffixes.cn.getD 0 []]
    else queries
  queries'.take 4

structure CitationSuggestion where
  sentenceIndex : Nat
  sentenceText : Str
  reason : CitationReason
  queries : List Str
deriving DecidableEq

structure CitationResult where
  rulesVersion : Str
  items : List CitationSuggestion
deriving DecidableEq

def RULES_VERSION : Str := "1.0.0".data

/-- generateCitationSuggestions from citationHints.ts. -/
def generateCitationSuggestions (draftText : Str) : CitationResult :=
  let sentences := splitSentencesCN draftText
  let items := sentences.filterMap (fun sentence =>
    (needsCitation sentence.text).map (fun reason =>
      { sentenceIndex := sentence.index
        sentenceText := sentence.text.take 100 ++
          (if 100 < sentence.text.length then "...".data else [])
        reason := reason
        queries := generateQueries sentence.text reason }))
  { rulesVersion := RULES_VERSION, items := items.take 20 }

/-! ### Structural lemmas about the sentence builder -/

theorem buildSentences_map_index (ps : List Str) :
    ∀ i, (buildSentences i ps).map Sentence.index =
      List.range' i (buildSentences i ps).length := by
  induction ps with
  | nil => intro i; simp [buildSentences]
  | cons p ps ih =>
    intro i
    simp only [buildSentences]
    split
    · exact ih i
    · split
      · exact ih i
      · split
        · exact ih i
        · simp [List.range'_succ, ih (i + 1)]

theorem buildSentences_text_len (ps : List Str) :
    ∀ i, ∀ s ∈ buildSentences i ps, 2 ≤ s.text.length := by
  induction ps with
  | nil => intro i s hs; simp [buildSentences] at hs
  | cons p ps ih =>
    intro i s hs
    simp only [buildSentences] at hs
    split at hs
    · exact ih i s hs
    · split at hs
      · exact ih i s hs
      · split at hs
        · exact ih i s hs
        · rcases List.mem_cons.mp hs with h | h
          · subst h; change 2 ≤ (trimWS p).length; omega
          · exact ih (i + 1) s h

/-! ### Basic facts about the whitespace machinery -/

theorem headOK_dropWhile (p : Char → Bool) :
    ∀ l : Str, headOK p (List.dropWhile p l) = true := by
  intro l
  induction l with
  | nil => rfl
  | cons c rest ih =>
    by_cases h : p c = true
    · simpa [List.dropWhile_cons, h] using ih
    · simp [List.dropWhile_cons, h, headOK]

theorem dropWhile_eq_self_of_headOK (p : Char → Bool) (l : Str)
    (h : headOK p l = true) : List.dropWhile p l = l := by
  cases l with
  | nil => rfl
  | cons c rest =>
    simp only [headOK, Bool.not_eq_true'] at h
    simp [List.dropWhile_cons, h]

theorem csGo_true_eq (s : Str) :
    csGo true s = ' ' :: csGo false (List.dropWhile isHWS s) := by
  induction s with
  | nil => rfl
  | cons c rest ih =>
    by_cases h : isHWS c = true
    · simp [csGo, h, List.dropWhile_cons, ih]
    · simp [csGo, h, List.dropWhile_cons]

theorem lfOK_mono : ∀ (s : Str) (k k' : Nat), k' ≤ k → lfOK k s = true →
    lfOK k' s = true := by
  intro s
  induction s with
  | nil => intro k k' _ _; rfl
  | cons c rest ih =>
    intro k k' hle h
    by_cases hc : c = '\n'
    · simp only [lfOK, if_pos hc, Bool.and_eq_true, decide_eq_true_eq] at h ⊢
      exact ⟨by omega, ih (k + 1) (k' + 1) (by omega) h.2⟩
    · simpa [lfOK, hc] using h

theorem lfOK_append_left : ∀ (l r : Str) (k : Nat),
    lfOK k (l ++ r) = true → lfOK k l = true := by
  intro l
  induction l with
  | nil => intro r k _; rfl
  | cons c rest ih =>
    intro r k h
    by_cases hc : c = '\n'
    · simp only [List.cons_append, lfOK, if_pos hc, Bool.and_eq_true] at h ⊢
      exact ⟨h.1, ih r (k + 1) h.2⟩
    · simp only [List.cons_append, lfOK, if_neg hc] at h ⊢
      exact ih r 0 h

theorem lfOK_dropWhile (p : Char → Bool) : ∀ (s : Str) (k : Nat),
    lfOK k s = true → lfOK 0 (List.dropWhile p s) = true := by
  intro s
  induction s with
  | nil => intro k _; rfl
  | cons c rest ih =>
    intro k h
    by_cases hp : p c = true
    · rw [List.dropWhile_cons, if_pos hp]
      by_cases hc : c = '\n'
      · simp only [lfOK, if_pos hc, Bool.and_eq_true] at h
        exact ih (k + 1) h.2
      · simp only [lfOK, if_neg hc] at h
        exact ih 0 h
    · rw [List.dropWhile_cons, if_neg hp]
      exact lfOK_mono _ k 0 (Nat.zero_le k) h

theorem hwsOK_true_imp : ∀ s : Str, hwsOK true s = true → hwsOK false s = true := by
  intro s h
  cases s with
  | nil => rfl
  | cons c rest =>
    by_cases hc : isHWS c = true
    · simp [hwsOK, hc] at h
    · simpa [hwsOK, hc] using h

theorem hwsOK_append_left : ∀ (l r : Str) (flag : Bool),
    hwsOK flag (l ++ r) = true → hwsOK flag l = true := by
  intro l
  induction l with
  | nil => intro r flag _; rfl
  | cons c rest ih =>
    intro r flag h
    by_cases hc : isHWS c = true
    · simp only [List.cons_append, hwsOK, if_pos hc, Bool.and_eq_true] at h ⊢
      exact ⟨h.1, ih r true h.2⟩
    · simp only [List.cons_append, hwsOK, if_neg hc] at h ⊢
      exact ih r false h

theorem hwsOK_dropWhile (p : Char → Bool) : ∀ (s : Str) (flag : Bool),
    hwsOK flag s = true → hwsOK false (List.dropWhile p s) = true := by
  intro s
  induction s with
  | nil => intro flag _; rfl
  | cons c rest ih =>
    intro flag h
    by_cases hp : p c = true
    · rw [List.dropWhile_cons, if_pos hp]
      by_cases hc : isHWS c = true
      · simp only [hwsOK, if_pos hc, Bool.and_eq_true] at h
        exact ih true h.2
      · simp only [hwsOK, if_neg hc] at h
        exact ih false h
    · rw [List.dropWhile_cons, if_neg hp]
      by_cases hc : isHWS c = true
      · cases flag with
        | false => simpa [hwsOK, hc] using h
        | true => simp [hwsOK, hc] at h
      · simpa [hwsOK, hc] using h

theorem noCR_mem (s : Str) (h : noCR s = true) : ∀ c ∈ s, c ≠ '\r' := by
  simpa [noCR, List.all_eq_true] using h

theorem noCR_of_mem (s : Str) (h : ∀ c ∈ s, c ≠ '\r') : noCR s = true := by
  simpa [noCR, List.all_eq_true] using h

/-! ### The normalization stages establish the invariants -/

theorem lfOK_pre (m : Nat) (hm : m ≤ 2) (c : Char) (hc : c ≠ '\n') (x : Str) :
    lfOK 0 (List.replicate m '\n' ++ c :: x) = lfOK 0 x := by
  interval_cases m <;> simp [lfOK, hc, List.replicate]

theorem lfOK_cnGo : ∀ (s : Str) (k : Nat), lfOK 0 (cnGo k s) = true := by
  intro s
  induction s with
  | nil =>
    intro k
    rcases k with _ | _ | k
    · simp [cnGo, lfOK]
    · simp [cnGo, lfOK]
    · have hmin : min (k + 2) 2 = 2 := by omega
      simp [cnGo, hmin, lfOK]
  | cons c rest ih =>
    intro k
    by_cases hc : c = '\n'
    · simpa [cnGo, hc] using ih (k + 1)
    · rw [cnGo, if_neg hc, lfOK_pre _ (Nat.min_le_right k 2) _ hc]
      exact ih 0

theorem cnGo_eq_self : ∀ (s : Str) (k : Nat), k ≤ 2 → lfOK k s = true →
    cnGo k s = List.replicate k '\n' ++ s := by
  intro s
  induction s with
  | nil =>
    intro k hk _
    simp [cnGo, Nat.min_eq_left hk]
  | cons c rest ih =>
    intro k hk h
    by_cases hc : c = '\n'
    · simp only [lfOK, if_pos hc, Bool.and_eq_true, decide_eq_true_eq] at h
      rw [cnGo, if_pos hc, ih (k + 1) (by omega) h.2, hc]
      simp [List.replicate_succ']
    · simp only [lfOK, if_neg hc] at h
      rw [cnGo, if_neg hc, ih 0 (by omega) h]
      simp [Nat.min_eq_left hk]

theorem hws_cs_aux : ∀ (n : Nat) (s : Str), s.length ≤ n →
    hwsOK false (csGo false s) = true ∧
      (headOK isHWS s = true → hwsOK true (csGo false s) = true) := by
  intro n
  induction n with
  | zero =>
    intro s hs
    rw [List.length_eq_zero.mp (Nat.le_zero.mp hs)]
    exact ⟨rfl, fun _ => rfl⟩
  | succ n ih =>
    intro s hs
    cases s with
    | nil => exact ⟨rfl, fun _ => rfl⟩
    | cons c rest =>
      simp only [List.length_cons, Nat.add_le_add_iff_right] at hs
      by_cases hc : isHWS c = true
      · constructor
        · rw [csGo, if_pos hc, csGo_true_eq]
          have hlen : (List.dropWhile isHWS rest).length ≤ n :=
            le_trans (List.Sublist.length_le (List.dropWhile_sublist _)) hs
          have := (ih _ hlen).2 (headOK_dropWhile isHWS rest)
          simpa [hwsOK, isHWS] using this
        · intro h
          simp [headOK, hc] at h
      · have h1 := (ih rest hs).1
        constructor
        · rw [csGo, if_neg hc]
          simpa [hwsOK, hc] using h1
        · intro _
          rw [csGo, if_neg hc]
          simpa [hwsOK, hc] using h1

theorem hwsOK_csGo (s : Str) (flag : Bool) : hwsOK false (csGo flag s) = true := by
  cases flag with
  | false => exact (hws_cs_aux s.length s le_rfl).1
  | true =>
    rw [csGo_true_eq]
    have := (hws_cs_aux _ _ (le_refl (List.dropWhile isHWS s).length)).2
      (headOK_dropWhile isHWS s)
    simpa [hwsOK, isHWS] using this

theorem lfOK_csGo : ∀ (n : Nat) (s : Str), s.length ≤ n →
    ∀ (k : Nat) (flag : Bool), lfOK k s = true → lfOK k (csGo flag s) = true := by
  intro n
  induction n with
  | zero =>
    intro s hs k flag _
    rw [List.length_eq_zero.mp (Nat.le_zero.mp hs)]
    cases flag <;> simp [csGo, lfOK]
  | succ n ih =>
    intro s hs k flag h
    cases s with
    | nil => cases flag <;> simp [csGo, lfOK]
    | cons c rest =>
      simp only [List.length_cons, Nat.add_le_add_iff_right] at hs
      by_cases hc : isHWS c = true
      · have hcn : c ≠ '\n' := by
          intro hEq; subst hEq; simp [isHWS] at hc
        have h0 : lfOK 0 rest = true := by simpa [lfOK, hcn] using h
        have h1 : lfOK 0 (List.dropWhile isHWS rest) = true :=
          lfOK_dropWhile isHWS rest 0 h0
        have hlen : (List.dropWhile isHWS rest).length ≤ n :=
          le_trans (List.Sublist.length_le (List.dropWhile_sublist _)) hs
        have h2 := ih _ hlen 0 false h1
        have hgoal : csGo flag (c :: rest) = ' ' :: csGo false (List.dropWhile isHWS rest) := by
          cases flag <;> rw [csGo, if_pos hc, csGo_true_eq]
        rw [hgoal]
        simpa [lfOK] using h2
      · by_cases hcn : c = '\n'
        · simp only [lfOK, if_pos hcn, Bool.and_eq_true, decide_eq_true_eq] at h
          cases flag with
          | false =>
            rw [csGo, if_neg hc]
            have := ih rest hs (k + 1) false h.2
            simp [lfOK, hcn, h.1, this]
          | true =>
            rw [csGo, if_neg hc]
            have hm : lfOK 1 rest = true := lfOK_mono rest (k + 1) 1 (by omega) h.2
            have := ih rest hs 1 false hm
            simp [lfOK, hcn, this]
        · have h0 : lfOK 0 rest = true := by simpa [lfOK, hcn] using h
          have := ih rest hs 0 false h0
          cases flag with
          | false =>
            rw [csGo, if_neg hc]
            simpa [lfOK, hcn] using this
          | true =>
            rw [csGo, if_neg hc]
            simpa [lfOK, hcn] using this

theorem mem_cnGo : ∀ (s : Str) (k : Nat) (c : Char),
    c ∈ cnGo k s → c = '\n' ∨ c ∈ s := by
  intro s
  induction s with
  | nil =>
    intro k c hc
    rw [cnGo] at hc
    exact Or.inl (List.eq_of_mem_replicate hc)
  | cons d rest ih =>
    intro k c hc
    by_cases hd : d = '\n'
    · rw [cnGo, if_pos hd] at hc
      rcases ih (k + 1) c hc with h | h
      · exact Or.inl h
      · exact Or.inr (List.mem_cons_of_mem d h)
    · rw [cnGo, if_neg hd] at hc
      rcases List.mem_append.mp hc with h | h
      · exact Or.inl (List.eq_of_mem_replicate h)
      · rcases List.mem_cons.mp h with h | h
        · exact Or.inr (List.mem_cons.mpr (Or.inl h))
        · rcases ih 0 c h with h' | h'
          · exact Or.inl h'
          · exact Or.inr (List.mem_cons_of_mem d h')

theorem mem_csGo : ∀ (s : Str) (flag : Bool) (c : Char),
    c ∈ csGo flag s → c = ' ' ∨ c ∈ s := by
  intro s
  induction s with
  | nil =>
    intro flag c hc
    cases flag with
    | false => simp [csGo] at hc
    | true =>
      simp only [csGo, if_pos, List.mem_singleton] at hc
      exact Or.inl hc
  | cons d rest ih =>
    intro flag c hc
    by_cases hd : isHWS d = true
    · rw [csGo, if_pos hd] at hc
      rcases ih true c hc with h | h
      · exact Or.inl h
      · exact Or.inr (List.mem_cons_of_mem d h)
    · rw [csGo, if_neg hd] at hc
      rcases List.mem_append.mp hc with h | h
      · cases flag with
        | false =>
          simp only [Bool.false_eq_true, if_false, List.mem_singleton] at h
          exact Or.inr (List.mem_cons.mpr (Or.inl h))
        | true =>
          simp only [if_true, List.mem_cons, List.not_mem_nil, or_false] at h
          rcases h with h | h
          · exact Or.inl h
          · exact Or.inr (List.mem_cons.mpr (Or.inl h))
      · rcases ih false c h with h' | h'
        · exact Or.inl h'
        · exact Or.inr (List.mem_cons_of_mem d h')

theorem mem_trimWS (s : Str) (c : Char) (hc : c ∈ trimWS s) : c ∈ s := by
  simp only [trimWS, dropTrailWS, List.mem_reverse] at hc
  have h1 : c ∈ (List.dropWhile isWS s).reverse :=
    (List.dropWhile_sublist _).subset hc
  rw [List.mem_reverse] at h1
  exact (List.dropWhile_sublist _).subset h1

/-! ### The stages are the identity on already-normalized text -/

theorem replCRLF_eq_self : ∀ s : Str, noCR s = true → replCRLF s = s := by
  intro s
  induction s with
  | nil => intro _; rfl
  | cons c rest ih =>
    intro h
    have hc : c ≠ '\r' := noCR_mem _ h c (List.mem_cons_self c rest)
    have hrest : noCR rest = true :=
      noCR_of_mem _ (fun d hd => noCR_mem _ h d (List.mem_cons_of_mem c hd))
    cases rest with
    | nil => rfl
    | cons d rest2 =>
      rw [replCRLF, if_neg (by tauto), ih hrest]

theorem map_crToLf_eq_self : ∀ s : Str, noCR s = true →
    List.map crToLf s = s := by
  intro s
  induction s with
  | nil => intro _; rfl
  | cons c rest ih =>
    intro h
    have hc : c ≠ '\r' := noCR_mem _ h c (List.mem_cons_self c rest)
    have hrest : noCR rest = true :=
      noCR_of_mem _ (fun d hd => noCR_mem _ h d (List.mem_cons_of_mem c hd))
    simp [crToLf, hc, ih hrest]

theorem csGo_eq_self : ∀ (s : Str) (flag : Bool), hwsOK flag s = true →
    csGo flag s = (if flag then [' '] else []) ++ s := by
  intro s
  induction s with
  | nil =>
    intro flag _
    cases flag <;> rfl
  | cons c rest ih =>
    intro flag h
    by_cases hc : isHWS c = true
    · simp only [hwsOK, if_pos hc, Bool.and_eq_true, beq_iff_eq, Bool.not_eq_true'] at h
      obtain ⟨⟨hsp, hflag⟩, hrest⟩ := h
      subst hsp hflag
      rw [csGo, if_pos hc, ih true hrest]
      rfl
    · simp only [hwsOK, if_neg hc] at h
      rw [csGo, if_neg hc, ih false h]
      cases flag <;> rfl

theorem cnGo_id (s : Str) (h : lfOK 0 s = true) : cnGo 0 s = s := by
  simpa using cnGo_eq_self s 0 (by omega) h

theorem csGo_id (s : Str) (h : hwsOK false s = true) : csGo false s = s := by
  simpa using csGo_eq_self s false h

/-! ### Trimming is idempotent and preserves the invariants -/

theorem dropTrailWS_spec (s : Str) :
    dropTrailWS s ++ (List.takeWhile isWS s.reverse).reverse = s := by
  rw [dropTrailWS, ← List.reverse_append, List.takeWhile_append_dropWhile,
    List.reverse_reverse]

theorem lfOK_trimWS (s : Str) (h : lfOK 0 s = true) : lfOK 0 (trimWS s) = true := by
  have h1 : lfOK 0 (List.dropWhile isWS s) = true := lfOK_dropWhile isWS s 0 h
  rw [← dropTrailWS_spec (List.dropWhile isWS s)] at h1
  exact lfOK_append_left _ _ 0 h1

theorem hwsOK_trimWS (s : Str) (h : hwsOK false s = true) :
    hwsOK false (trimWS s) = true := by
  have h1 : hwsOK false (List.dropWhile isWS s) = true := hwsOK_dropWhile isWS s false h
  rw [← dropTrailWS_spec (List.dropWhile isWS s)] at h1
  exact hwsOK_append_left _ _ false h1

theorem dropTrailWS_headOK (u : Str) (h : headOK isWS u = true) :
    headOK isWS (dropTrailWS u) = true := by
  cases hvv : dropTrailWS u with
  | nil => rfl
  | cons c tl =>
    have hspec := dropTrailWS_spec u
    rw [hvv] at hspec
    cases u with
    | nil => simp at hspec
    | cons d rest =>
      have hcd : c = d := by
        have h2 := congrArg List.head? hspec
        simpa using h2
      simp only [headOK] at h ⊢
      rw [hcd]
      exact h

theorem dropTrailWS_idem (u : Str) : dropTrailWS (dropTrailWS u) = dropTrailWS u := by
  simp only [dropTrailWS, List.reverse_reverse]
  rw [dropWhile_eq_self_of_headOK _ _ (headOK_dropWhile isWS u.reverse)]

theorem trimWS_idem (s : Str) : trimWS (trimWS s) = trimWS s := by
  have hhead : headOK isWS (dropTrailWS (List.dropWhile isWS s)) = true :=
    dropTrailWS_headOK _ (headOK_dropWhile isWS s)
  show dropTrailWS (List.dropWhile isWS (dropTrailWS (List.dropWhile isWS s))) =
    dropTrailWS (List.dropWhile isWS s)
  rw [dropWhile_eq_self_of_headOK _ _ hhead, dropTrailWS_idem]

/-! ### Every output of normalizeText satisfies the invariants -/

theorem normalizeText_invariants (t : Str) :
    noCR (normalizeText t) = true ∧ lfOK 0 (normalizeText t) = true ∧
      hwsOK false (normalizeText t) = true ∧
      trimWS (normalizeText t) = normalizeText t := by
  refine ⟨?_, ?_, ?_, trimWS_idem _⟩
  · apply noCR_of_mem
    intro c hc
    have hc1 := mem_trimWS _ _ hc
    rcases mem_csGo _ _ _ hc1 with h | h
    · subst h; decide
    rcases mem_cnGo _ _ _ h with h' | h'
    · subst h'; decide
    rcases List.mem_map.mp h' with ⟨d, _, hd⟩
    subst hd
    by_cases hd' : d = '\r' <;> simp [crToLf, hd']
  · exact lfOK_trimWS _ (lfOK_csGo _ _ le_rfl 0 false (lfOK_cnGo _ 0))
  · exact hwsOK_trimWS _ (hwsOK_csGo _ _)

end PaperMirror

/-- C3: for every input string, the sentences returned by splitSentencesCN
carry index values forming the contiguous sequence 0, 1, 2, ... in output
order, and every returned sentence's text is non-empty and at least two
characters long. -/
theorem c3_sentence_indices (t : PaperMirror.Str) :
    (PaperMirror.splitSentencesCN t).map PaperMirror.Sentence.index =
      List.range (PaperMirror.splitSentencesCN t).length ∧
    ∀ s ∈ PaperMirror.splitSentencesCN t, s.text ≠ [] ∧ 2 ≤ s.text.length := by
  constructor
  · rw [List.range_eq_range']
    exact PaperMirror.buildSentences_map_index _ 0
  · intro s hs
    have h2 := PaperMirror.buildSentences_text_len _ 0 s hs
    refine ⟨?_, h2⟩
    intro h
    rw [h] at h2
    simp at h2

/-- C4: normalizeText is idempotent: normalizing an already normalized string
returns it unchanged. -/
theorem c4_normalize_idempotent (t : PaperMirror.Str) :
    PaperMirror.normalizeText (PaperMirror.normalizeText t) =
      PaperMirror.normalizeText t := by
  obtain ⟨h1, h2, h3, h4⟩ := PaperMirror.normalizeText_invariants t
  set v := PaperMirror.normalizeText t with hv
  show PaperMirror.trimWS (PaperMirror.csGo false (PaperMirror.cnGo 0
    (List.map PaperMirror.crToLf (PaperMirror.replCRLF v)))) = v
  rw [PaperMirror.replCRLF_eq_self v h1, PaperMirror.map_crToLf_eq_self v h1,
    PaperMirror.cnGo_id v h2, PaperMirror.csGo_id v h3, h4]

namespace PaperMirror

/-! ### Arithmetic facts about rounding and the distances -/

theorem floor_half : ⌊(1 / 2 : ℚ)⌋ = 0 := by
  rw [Int.floor_eq_iff]
  norm_num

theorem jsRound_intCast (n : ℤ) : jsRound ((n : ℚ)) = n := by
  rw [jsRound, Int.floor_int_add, floor_half, add_zero]

theorem round1_zero : round1 0 = 0 := by
  have h : (0 : ℚ) * 10 = ((0 : ℤ) : ℚ) := by norm_num
  rw [round1, h, jsRound_intCast]
  norm_num

theorem round1_hundred : round1 100 = 100 := by
  have h : (100 : ℚ) * 10 = ((1000 : ℤ) : ℚ) := by norm_num
  rw [round1, h, jsRound_intCast]
  norm_num

theorem round1_le_round1 {a b : ℚ} (h : a ≤ b) : round1 a ≤ round1 b := by
  rw [round1, round1]
  have h1 : jsRound (a * 10) ≤ jsRound (b * 10) :=
    Int.floor_le_floor (by linarith)
  have h2 : ((jsRound (a * 10) : ℤ) : ℚ) ≤ ((jsRound (b * 10) : ℤ) : ℚ) :=
    Int.cast_le.mpr h1
  linarith

theorem normalizedDiff_nonneg (a b m : ℚ) (hm : 0 ≤ m) :
    0 ≤ normalizedDiff a b m := by
  rw [normalizedDiff]
  split
  · exact le_refl 0
  · exact le_min (div_nonneg (abs_nonneg _) hm) (by norm_num)

theorem normalizedDiff_le_one (a b m : ℚ) : normalizedDiff a b m ≤ 1 := by
  rw [normalizedDiff]
  split
  · norm_num
  · exact min_le_right _ _

theorem normalizedDiff_self (a m : ℚ) : normalizedDiff a a m = 0 := by
  rw [normalizedDiff]
  split
  · rfl
  · rw [sub_self, abs_zero, zero_div]
    exact min_eq_left zero_le_one

theorem sentenceLengthDistance_mem (t s : SentenceLengthStats) :
    0 ≤ sentenceLengthDistance t s ∧ sentenceLengthDistance t s ≤ 1 := by
  have h1 := normalizedDiff_nonneg t.mean s.mean SENTENCE_LENGTH_MAX_EXPECTED.mean
    (by norm_num [SENTENCE_LENGTH_MAX_EXPECTED])
  have h2 := normalizedDiff_nonneg t.p50 s.p50 SENTENCE_LENGTH_MAX_EXPECTED.percentile
    (by norm_num [SENTENCE_LENGTH_MAX_EXPECTED])
  have h3 := normalizedDiff_nonneg t.p90 s.p90 SENTENCE_LENGTH_MAX_EXPECTED.p90
    (by norm_num [SENTENCE_LENGTH_MAX_EXPECTED])
  have h4 := normalizedDiff_nonneg t.longRate50 s.longRate50 SENTENCE_LENGTH_MAX_EXPECTED.longRate
    (by norm_num [SENTENCE_LENGTH_MAX_EXPECTED])
  have h1' := normalizedDiff_le_one t.mean s.mean SENTENCE_LENGTH_MAX_EXPECTED.mean
  have h2' := normalizedDiff_le_one t.p50 s.p50 SENTENCE_LENGTH_MAX_EXPECTED.percentile
  have h3' := normalizedDiff_le_one t.p90 s.p90 SENTENCE_LENGTH_MAX_EXPECTED.p90
  have h4' := normalizedDiff_le_one t.longRate50 s.longRate50 SENTENCE_LENGTH_MAX_EXPECTED.longRate
  simp only [sentenceLengthDistance]
  constructor <;> linarith

theorem connectorDistance_mem (t s : ConnectorCounts) :
    0 ≤ connectorDistance t s ∧ connectorDistance t s ≤ 1 := by
  simp only [connectorDistance]
  refine ⟨le_min (by positivity) (by norm_num), min_le_right _ _⟩

theorem punctuationDistance_mem (t s : PunctuationDensity) :
    0 ≤ punctuationDistance t s ∧ punctuationDistance t s ≤ 1 := by
  have h1 := normalizedDiff_nonneg t.comma s.comma PUNCTUATION_MAX_EXPECTED.comma
    (by norm_num [PUNCTUATION_MAX_EXPECTED])
  have h2 := normalizedDiff_nonneg t.semicolon s.semicolon PUNCTUATION_MAX_EXPECTED.semicolon
    (by norm_num [PUNCTUATION_MAX_EXPECTED])
  have h3 := normalizedDiff_nonneg t.parenthesis s.parenthesis PUNCTUATION_MAX_EXPECTED.parenthesis
    (by norm_num [PUNCTUATION_MAX_EXPECTED])
  have h1' := normalizedDiff_le_one t.comma s.comma PUNCTUATION_MAX_EXPECTED.comma
  have h2' := normalizedDiff_le_one t.semicolon s.semicolon PUNCTUATION_MAX_EXPECTED.semicolon
  have h3' := normalizedDiff_le_one t.parenthesis s.parenthesis PUNCTUATION_MAX_EXPECTED.parenthesis
  simp only [punctuationDistance]
  constructor <;> linarith

theorem templateDistance_mem (t s : TemplateCounts) :
    0 ≤ templateDistance t s ∧ templateDistance t s ≤ 1 :=
  ⟨normalizedDiff_nonneg _ _ _ (by norm_num [TEMPLATE_MAX_EXPECTED]),
    normalizedDiff_le_one _ _ _⟩

theorem connectorDistance_self (c : ConnectorCounts) : connectorDistance c c = 0 := by
  simp only [connectorDistance, sub_self, abs_zero, add_zero, zero_div]
  exact min_eq_left zero_le_one

end PaperMirror

/-- C2: for every pair of DetailedMetrics values, calculateMirrorScore with the
default weights returns a number in the closed interval [0, 100]. -/
theorem c2_mirror_score_bounds (target sample : PaperMirror.DetailedMetrics) :
    0 ≤ PaperMirror.calculateMirrorScore target sample PaperMirror.DEFAULT_WEIGHTS ∧
      PaperMirror.calculateMirrorScore target sample PaperMirror.DEFAULT_WEIGHTS ≤ 100 := by
  obtain ⟨hs0, hs1⟩ :=
    PaperMirror.sentenceLengthDistance_mem target.sentenceLength sample.sentenceLength
  obtain ⟨hc0, hc1⟩ :=
    PaperMirror.connectorDistance_mem target.connectorCounts sample.connectorCounts
  obtain ⟨hp0, hp1⟩ :=
    PaperMirror.punctuationDistance_mem target.punctuationDensity sample.punctuationDensity
  obtain ⟨ht0, ht1⟩ :=
    PaperMirror.templateDistance_mem target.templateCounts sample.templateCounts
  show 0 ≤ PaperMirror.round1
      ((1 - (PaperMirror.sentenceLengthDistance target.sentenceLength sample.sentenceLength * 0.4 +
        PaperMirror.connectorDistance target.connectorCounts sample.connectorCounts * 0.25 +
        PaperMirror.punctuationDistance target.punctuationDensity sample.punctuationDensity * 0.15 +
        PaperMirror.templateDistance target.templateCounts sample.templateCounts * 0.2)) * 100) ∧
    PaperMirror.round1
      ((1 - (PaperMirror.sentenceLengthDistance target.sentenceLength sample.sentenceLength * 0.4 +
        PaperMirror.connectorDistance target.connectorCounts sample.connectorCounts * 0.25 +
        PaperMirror.punctuationDistance target.punctuationDensity sample.punctuationDensity * 0.15 +
        PaperMirror.templateDistance target.templateCounts sample.templateCounts * 0.2)) * 100) ≤ 100
  constructor
  · calc (0 : ℚ) = PaperMirror.round1 0 := PaperMirror.round1_zero.symm
      _ ≤ _ := PaperMirror.round1_le_round1 (by nlinarith)
  · calc PaperMirror.round1 _ ≤ PaperMirror.round1 100 :=
        PaperMirror.round1_le_round1 (by nlinarith)
      _ = 100 := PaperMirror.round1_hundred

/-- C5: comparing a profile to itself with the default weights yields exactly
100. -/
theorem c5_self_score (x : PaperMirror.DetailedMetrics) :
    PaperMirror.calculateMirrorScore x x PaperMirror.DEFAULT_WEIGHTS = 100 := by
  show PaperMirror.round1
      ((1 - (PaperMirror.sentenceLengthDistance x.sentenceLength x.sentenceLength * 0.4 +
        PaperMirror.connectorDistance x.connectorCounts x.connectorCounts * 0.25 +
        PaperMirror.punctuationDistance x.punctuationDensity x.punctuationDensity * 0.15 +
        PaperMirror.templateDistance x.templateCounts x.templateCounts * 0.2)) * 100) = 100
  have hs : PaperMirror.sentenceLengthDistance x.sentenceLength x.sentenceLength = 0 := by
    simp [PaperMirror.sentenceLengthDistance, PaperMirror.normalizedDiff_self]
  have hc := PaperMirror.connectorDistance_self x.connectorCounts
  have hp : PaperMirror.punctuationDistance x.punctuationDensity x.punctuationDensity = 0 := by
    simp [PaperMirror.punctuationDistance, PaperMirror.normalizedDiff_self]
  have ht : PaperMirror.templateDistance x.templateCounts x.templateCounts = 0 := by
    simp [PaperMirror.templateDistance, PaperMirror.normalizedDiff_self]
  rw [hs, hc, hp, ht]
  have harg : (1 - ((0 : ℚ) * 0.4 + 0 * 0.25 + 0 * 0.15 + 0 * 0.2)) * 100 = 100 := by
    norm_num
  rw [harg]
  exact PaperMirror.round1_hundred

/-- C9: the improvement field of generateMirrorScore equals the rounded
difference of its standardToSample and draftToSample fields, for any metrics
and any weights. -/
theorem c9_improvement (sample draft standard : PaperMirror.DetailedMetrics)
    (w : PaperMirror.Weights) :
    (PaperMirror.generateMirrorScore sample draft standard w).improvement =
      PaperMirror.round1
        ((PaperMirror.generateMirrorScore sample draft standard w).standardToSample -
          (PaperMirror.generateMirrorScore sample draft standard w).draftToSample) := rfl

namespace PaperMirror

/-! ### Evaluation lemmas for retention rates -/

theorem round1_intCast (n : ℤ) : round1 ((n : ℚ)) = (n : ℚ) := by
  rw [round1]
  have h : (n : ℚ) * 10 = ((n * 10 : ℤ) : ℚ) := by push_cast; ring
  rw [h, jsRound_intCast]
  push_cast
  exact mul_div_cancel_right₀ _ (by norm_num)

theorem calculateRetentionRate_self (l : List Str) :
    calculateRetentionRate l l = 100 := by
  rw [calculateRetentionRate]
  split
  · rfl
  · rename_i h
    have hcount : l.countP (fun x => decide (x ∈ l)) = l.length :=
      List.countP_eq_length.mpr (fun a ha => by simpa using ha)
    rw [hcount, div_self (by exact_mod_cast h), one_mul]
    exact round1_hundred

theorem findMissingItems_self (l : List Str) : findMissingItems l l = [] := by
  rw [findMissingItems]
  apply List.filter_eq_nil_iff.mpr
  intro a ha
  simpa using ha

theorem calculateRetentionRate_eval (original rewritten : List Str) (c : Nat)
    (hc : original.countP (fun x => decide (x ∈ rewritten)) = c)
    (hn : ¬ original.length = 0) :
    calculateRetentionRate original rewritten =
      round1 ((c : ℚ) / (original.length : ℚ) * 100) := by
  rw [calculateRetentionRate, if_neg hn, hc]

end PaperMirror

/-- C6: comparing any text with itself yields 100 percent retention for both
numbers and acronyms with no alerts; and the retention rate of any category
is 100 whenever the original extracted set is empty. -/
theorem c6_fidelity_identity :
    (∀ t : PaperMirror.Str, PaperMirror.calculateFidelityGuardrails t t =
      { numberRetentionRate := 100, acronymRetentionRate := 100, alerts := [] }) ∧
    ∀ rewritten : List PaperMirror.Str,
      PaperMirror.calculateRetentionRate [] rewritten = 100 := by
  constructor
  · intro t
    simp only [PaperMirror.calculateFidelityGuardrails,
      PaperMirror.calculateRetentionRate_self, PaperMirror.findMissingItems_self,
      List.take_nil, List.map_nil, List.append_nil]
  · intro rewritten
    rfl

/-- C1 counterexample: on the spec's scenario (draft
"准确率达到95.5%，使用了ResNet-50模型。" versus standard "准确率达到95.5%。")
the claimed conjunction fails: extractAcronyms does not contain "ResNet-50"
(pattern 3 of the source cannot cross the internal capital of "ResNet"), so
no alert can cite it, and the number retention rate is 75, not 100 (the "50"
of "ResNet-50" is extracted as a number and lost). -/
theorem c1_counterexample :
    ¬ ("95.5%".data ∈
        PaperMirror.extractNumbers "准确率达到95.5%，使用了ResNet-50模型。".data ∧
      "ResNet-50".data ∈
        PaperMirror.extractAcronyms "准确率达到95.5%，使用了ResNet-50模型。".data ∧
      (PaperMirror.calculateFidelityGuardrails
        "准确率达到95.5%，使用了ResNet-50模型。".data
        "准确率达到95.5%。".data).acronymRetentionRate = 0 ∧
      ((PaperMirror.calculateFidelityGuardrails
        "准确率达到95.5%，使用了ResNet-50模型。".data
        "准确率达到95.5%。".data).alerts.filter
          (fun a => a.type == PaperMirror.AlertType.acronym_change)).map
            PaperMirror.FidelityAlert.detail = ["缺失缩略词: ResNet-50".data] ∧
      (PaperMirror.calculateFidelityGuardrails
        "准确率达到95.5%，使用了ResNet-50模型。".data
        "准确率达到95.5%。".data).numberRetentionRate = 100) :=
  fun h => absurd h.2.1 (by decide)

/-- C1 amended: on the spec's scenario, extractNumbers(draft) contains
"95.5%", extractAcronyms(draft) contains "ResNet" (not "ResNet-50"),
acronymRetentionRate is 0 with exactly one acronym_change alert citing
"ResNet", and numberRetentionRate is 75 (the token "50" from "ResNet-50" is
extracted as a number and is missing from the standard text). -/
theorem c1_amended :
    "95.5%".data ∈
      PaperMirror.extractNumbers "准确率达到95.5%，使用了ResNet-50模型。".data ∧
    "ResNet".data ∈
      PaperMirror.extractAcronyms "准确率达到95.5%，使用了ResNet-50模型。".data ∧
    (PaperMirror.calculateFidelityGuardrails
      "准确率达到95.5%，使用了ResNet-50模型。".data
      "准确率达到95.5%。".data).acronymRetentionRate = 0 ∧
    (PaperMirror.calculateFidelityGuardrails
      "准确率达到95.5%，使用了ResNet-50模型。".data
      "准确率达到95.5%。".data).alerts.filter
        (fun a => a.type == PaperMirror.AlertType.acronym_change) =
      [{ type := PaperMirror.AlertType.acronym_change, sentenceIndex := 0,
         detail := "缺失缩略词: ResNet".data }] ∧
    (PaperMirror.calculateFidelityGuardrails
      "准确率达到95.5%，使用了ResNet-50模型。".data
      "准确率达到95.5%。".data).numberRetentionRate = 75 := by
  refine ⟨by decide, by decide, ?_, by decide, ?_⟩
  · have hrfl : (PaperMirror.calculateFidelityGuardrails
        "准确率达到95.5%，使用了ResNet-50模型。".data
        "准确率达到95.5%。".data).acronymRetentionRate =
      PaperMirror.calculateRetentionRate
        (PaperMirror.extractAcronyms "准确率达到95.5%，使用了ResNet-50模型。".data)
        (PaperMirror.extractAcronyms "准确率达到95.5%。".data) := rfl
    rw [hrfl, PaperMirror.calculateRetentionRate_eval _ _ 0 (by decide) (by decide)]
    have hlen : (PaperMirror.extractAcronyms
        "准确率达到95.5%，使用了ResNet-50模型。".data).length = 1 := by decide
    rw [hlen]
    have harg : ((0 : ℕ) : ℚ) / ((1 : ℕ) : ℚ) * 100 = ((0 : ℤ) : ℚ) := by norm_num
    rw [harg, PaperMirror.round1_intCast]
    norm_num
  · have hrfl : (PaperMirror.calculateFidelityGuardrails
        "准确率达到95.5%，使用了ResNet-50模型。".data
        "准确率达到95.5%。".data).numberRetentionRate =
      PaperMirror.calculateRetentionRate
        (PaperMirror.extractNumbers "准确率达到95.5%，使用了ResNet-50模型。".data)
        (PaperMirror.extractNumbers "准确率达到95.5%。".data) := rfl
    rw [hrfl, PaperMirror.calculateRetentionRate_eval _ _ 3 (by decide) (by decide)]
    have hlen : (PaperMirror.extractNumbers
        "准确率达到95.5%，使用了ResNet-50模型。".data).length = 4 := by decide
    rw [hlen]
    have harg : ((3 : ℕ) : ℚ) / ((4 : ℕ) : ℚ) * 100 = ((75 : ℤ) : ℚ) := by norm_num
    rw [harg, PaperMirror.round1_intCast]
    norm_num

/-- C7: calculateMetrics on the empty string yields the all-zero metrics
record: zero means, percentiles, long-sentence rate, punctuation densities,
connector counts, template counts, text length and sentence count, with every
zero-denominator ratio defined as 0. -/
theorem c7_empty_metrics :
    PaperMirror.calculateMetrics [] =
      { sentenceLength := { mean := 0, p50 := 0, p90 := 0, longRate50 := 0 },
        punctuationDensity := { comma := 0, semicolon := 0, parenthesis := 0 },
        connectorCounts :=
          { causal := 0, adversative := 0, additive := 0, emphatic := 0, total := 0 },
        templateCounts := { count := 0, perThousandChars := 0 },
        textLengthChars := 0,
        sentenceCount := 0 } := by
  have hbody : PaperMirror.getBodyText [] = [] := rfl
  have hsent : PaperMirror.splitSentencesCN [] = [] := rfl
  have hca : ((PaperMirror.CONNECTOR_WORDS.causal.map
      (PaperMirror.countSub [])).foldl (· + ·) 0) = 0 := by decide
  have had : ((PaperMirror.CONNECTOR_WORDS.adversative.map
      (PaperMirror.countSub [])).foldl (· + ·) 0) = 0 := by decide
  have hadd : ((PaperMirror.CONNECTOR_WORDS.additive.map
      (PaperMirror.countSub [])).foldl (· + ·) 0) = 0 := by decide
  have hem : ((PaperMirror.CONNECTOR_WORDS.emphatic.map
      (PaperMirror.countSub [])).foldl (· + ·) 0) = 0 := by decide
  have htp : ((PaperMirror.TEMPLATE_PHRASES.map
      (fun p => PaperMirror.reCount p [])).foldl (· + ·) 0) = 0 := by decide
  simp only [PaperMirror.calculateMetrics, hbody, hsent, hca, had, hadd, hem, htp,
    List.map_nil, List.mergeSort_nil, List.filter_nil, List.length_nil,
    PaperMirror.mean, PaperMirror.percentile, PaperMirror.round1_zero,
    PaperMirror.countSub, PaperMirror.countSubF]
  norm_num [PaperMirror.round1_zero]

/-- C8: a draft sentence equal to "本文提出了一种新方法。" never appears among
the citation suggestions: the own-work pattern 本文提出 suppresses it in
needsCitation before any category (including method) is tested. -/
theorem c8_own_work_suppressed (draft : PaperMirror.Str) :
    ((PaperMirror.generateCitationSuggestions draft).items.filter
      (fun it => it.sentenceText == "本文提出了一种新方法。".data)) = [] := by
  rw [List.filter_eq_nil_iff]
  intro it hit
  simp only [beq_iff_eq]
  intro heq
  have hit2 := List.mem_of_mem_take hit
  rcases List.mem_filterMap.mp hit2 with ⟨s, hs, hmap⟩
  rcases Option.map_eq_some'.mp hmap with ⟨r, hr, hity⟩
  by_cases htext : s.text = "本文提出了一种新方法。".data
  · rw [htext] at hr
    have hnone :
        PaperMirror.needsCitation "本文提出了一种新方法。".data = none := by decide
    rw [hnone] at hr
    exact Option.noConfusion hr
  · have hst : it.sentenceText = s.text.take 100 ++
        (if 100 < s.text.length then "...".data else []) := by
      rw [← hity]
    by_cases hlen : 100 < s.text.length
    · have h103 : it.sentenceText.length = 103 := by
        rw [hst, if_pos hlen, List.length_append, List.length_take]
        have : ("...".data).length = 3 := rfl
        omega
      rw [heq] at h103
      simp at h103
    · push_neg at hlen
      have hself : it.sentenceText = s.text := by
        rw [hst, if_neg (by omega), List.take_of_length_le hlen, List.append_nil]
      exact htext (hself ▸ heq)

namespace PaperMirror

/-! ### Facts about the third acronym pattern, toward the capitalized-word
claim -/

theorem take_takeWhile (p : Char → Bool) : ∀ l : Str,
    List.take (List.takeWhile p l).length l = List.takeWhile p l := by
  intro l
  induction l with
  | nil => rfl
  | cons c rest ih =>
    by_cases h : p c = true <;>
      simp [List.takeWhile_cons, h, List.take_succ_cons, ih]

theorem isWordChar_of_lower {c : Char} (h : c.isLower = true) :
    isWordChar c = true := by
  simp [isWordChar, isAlnum, Char.isAlpha, h]

theorem isWordChar_of_upper {c : Char} (h : c.isUpper = true) :
    isWordChar c = true := by
  simp [isWordChar, isAlnum, Char.isAlpha, h]

theorem isWordChar_of_digit {c : Char} (h : c.isDigit = true) :
    isWordChar c = true := by
  simp [isWordChar, isAlnum, h]

theorem isWordChar_of_alnum {c : Char} (h : isAlnum c = true) :
    isWordChar c = true := by
  simp [isWordChar, h]

theorem takeWhile_append_of_all (p : Char → Bool) : ∀ (l r : Str),
    (∀ c ∈ l, p c = true) → headOK p r = true →
    List.takeWhile p (l ++ r) = l := by
  intro l
  induction l with
  | nil =>
    intro r _ hr
    cases r with
    | nil => rfl
    | cons d r' =>
      simp only [headOK, Bool.not_eq_true'] at hr
      simp [List.takeWhile_cons, hr]
  | cons c rest ih =>
    intro r hl hr
    have hc := hl c (List.mem_cons_self c rest)
    simp only [List.cons_append, List.takeWhile_cons, hc, if_true]
    rw [ih r (fun d hd => hl d (List.mem_cons_of_mem c hd)) hr]

theorem acro3Group_boundary (post : Str)
    (hpost1 : ∀ d, post.head? = some d → isWordChar d = false)
    (hpost2 : ∀ e r, post = '-' :: e :: r → (e.isUpper || e.isDigit) = false) :
    acro3Group post = some 0 := by
  cases post with
  | nil => rfl
  | cons x r2 =>
    have hx := hpost1 x rfl
    simp only [acro3Group]
    rw [if_neg (by simp [hx])]
    by_cases hdash : x = '-'
    · subst hdash
      cases r2 with
      | nil => simp
      | cons y r3 =>
        have hy := hpost2 y r3 rfl
        simp [hy]
    · rw [if_neg (by simpa using hdash)]

theorem acro3_at_word (U : Char) (ls post : Str) (hU : U.isUpper = true)
    (hls : ls ≠ []) (hlsLower : ∀ c ∈ ls, c.isLower = true)
    (hpost1 : ∀ d, post.head? = some d → isWordChar d = false)
    (hpost2 : ∀ e r, post = '-' :: e :: r → (e.isUpper || e.isDigit) = false) :
    acro3 (U :: (ls ++ post)) = some ls.length := by
  have hpostHead : headOK Char.isLower post = true := by
    cases post with
    | nil => rfl
    | cons d r =>
      have hd := hpost1 d rfl
      simp only [headOK, Bool.not_eq_true']
      by_cases h : d.isLower = true
      · rw [isWordChar_of_lower h] at hd
        exact absurd hd (by simp)
      · simpa using h
  have htw : List.takeWhile Char.isLower (ls ++ post) = ls :=
    takeWhile_append_of_all _ _ _ hlsLower hpostHead
  rw [acro3]
  simp only [htw, hU, Bool.not_true, Bool.false_eq_true, if_false,
    List.drop_left, acro3Group_boundary post hpost1 hpost2, Option.map_some']
  rw [if_neg (by simpa [List.isEmpty_iff] using hls)]
  simp

theorem acro3Group_chars (t : Str) (g : Nat) (h : acro3Group t = some g) :
    ∀ c ∈ List.take g t, isWordChar c = true ∨ c = '-' := by
  intro c hc
  rw [acro3Group.eq_def] at h
  split at h
  · obtain rfl : (0 : Nat) = g := by simpa using h
    simp at hc
  · rename_i x r2
    split at h
    · exact absurd h (by simp)
    · split at h
      · rename_i hword hdash
        have hx : x = '-' := by simpa using hdash
        subst hx
        split at h
        · obtain rfl : (0 : Nat) = g := by simpa using h
          simp at hc
        · rename_i y r3
          split at h
          · rename_i hyd
            simp only [] at h
            split at h
            · rename_i z hz
              split at h
              · obtain rfl : (0 : Nat) = g := by simpa using h
                simp at hc
              · obtain rfl : 2 + (List.takeWhile isAlnum r3).length = g := by
                  simpa using h
                rw [show 2 + (List.takeWhile isAlnum r3).length =
                  ((List.takeWhile isAlnum r3).length + 1) + 1 by omega,
                  List.take_succ_cons, List.take_succ_cons, take_takeWhile] at hc
                rcases List.mem_cons.mp hc with hc1 | hc2
                · exact Or.inr hc1
                rcases List.mem_cons.mp hc2 with hc3 | hc4
                · subst hc3
                  rcases Bool.or_eq_true_iff.mp hyd with hy | hy
                  · exact Or.inl (isWordChar_of_upper hy)
                  · exact Or.inl (isWordChar_of_digit hy)
                · exact Or.inl (isWordChar_of_alnum (List.mem_takeWhile_imp hc4))
            · obtain rfl : 2 + (List.takeWhile isAlnum r3).length = g := by
                simpa using h
              rw [show 2 + (List.takeWhile isAlnum r3).length =
                ((List.takeWhile isAlnum r3).length + 1) + 1 by omega,
                List.take_succ_cons, List.take_succ_cons, take_takeWhile] at hc
              rcases List.mem_cons.mp hc with hc1 | hc2
              · exact Or.inr hc1
              rcases List.mem_cons.mp hc2 with hc3 | hc4
              · subst hc3
                rcases Bool.or_eq_true_iff.mp hyd with hy | hy
                · exact Or.inl (isWordChar_of_upper hy)
                · exact Or.inl (isWordChar_of_digit hy)
              · exact Or.inl (isWordChar_of_alnum (List.mem_takeWhile_imp hc4))
          · obtain rfl : (0 : Nat) = g := by simpa using h
            simp at hc
      · obtain rfl : (0 : Nat) = g := by simpa using h
        simp at hc

theorem acro3_chars (s : Str) (k : Nat) (h : acro3 s = some k) :
    ∀ c ∈ List.take (k + 1) s, isWordChar c = true ∨ c = '-' := by
  cases s with
  | nil =>
    rw [acro3] at h
    exact absurd h (by simp)
  | cons c0 rest =>
    intro c hc
    rw [acro3] at h
    by_cases hup : c0.isUpper = true
    · rw [if_neg (by simp [hup])] at h
      by_cases hemp : (List.takeWhile Char.isLower rest).isEmpty = true
      · rw [if_pos hemp] at h
        exact absurd h (by simp)
      · rw [if_neg hemp] at h
        rcases Option.map_eq_some'.mp h with ⟨g, hg, hk⟩
        subst hk
        rw [List.take_succ_cons] at hc
        rcases List.mem_cons.mp hc with hc1 | hc2
        · subst hc1
          exact Or.inl (isWordChar_of_upper hup)
        · have hrest : rest =
              List.takeWhile Char.isLower rest ++
                List.drop (List.takeWhile Char.isLower rest).length rest := by
            conv_lhs => rw [← List.take_append_drop
              (List.takeWhile Char.isLower rest).length rest]
            rw [take_takeWhile]
          nth_rewrite 2 [hrest] at hc2
          rw [List.take_append] at hc2
          rcases List.mem_append.mp hc2 with hc3 | hc4
          · exact Or.inl (isWordChar_of_lower (List.mem_takeWhile_imp hc3))
          · exact acro3Group_chars _ g hg c hc4
    · rw [if_pos (by simp [hup])] at h
      exact absurd h (by simp)

end PaperMirror

namespace PaperMirror

/-- The step equation of scanBF on a non-empty string with fuel left. -/
theorem scanBF_cons (f : Str → Option Nat) (fuel : Nat) (prev : Option Char)
    (c : Char) (rest : Str) :
    scanBF f (fuel + 1) prev (c :: rest) =
      if bdryOK prev = true then
        match f (c :: rest) with
        | none => scanBF f fuel (some c) rest
        | some k =>
          List.take (k + 1) (c :: rest) ::
            scanBF f fuel (some ((c :: rest).getD k 'x')) (List.drop k rest)
      else scanBF f fuel (some c) rest := rfl

/-- The scan of the third acronym pattern finds a capitalized word standing
between a non-word, non-hyphen left context and a right context that opens
with a non-word character not beginning a hyphenated suffix. -/
theorem scanBF_p3_mem (U : Char) (ls post : Str) (hU : U.isUpper = true)
    (hls : ls ≠ []) (hlsLower : ∀ c ∈ ls, c.isLower = true)
    (hpost1 : ∀ d, post.head? = some d → isWordChar d = false)
    (hpost2 : ∀ e r, post = '-' :: e :: r → (e.isUpper || e.isDigit) = false) :
    ∀ (fuel : Nat) (pre : Str) (prev : Option Char),
      (pre ++ (U :: (ls ++ post))).length ≤ fuel →
      (pre = [] → bdryOK prev = true) →
      (∀ c, pre.getLast? = some c → isWordChar c = false ∧ c ≠ '-') →
      (U :: ls) ∈ scanBF acro3 fuel prev (pre ++ (U :: (ls ++ post))) := by
  intro fuel
  induction fuel with
  | zero =>
    intro pre prev hlen _ _
    exfalso
    simp [List.length_append] at hlen
  | succ fuel ih =>
    intro pre prev hlen hprev hpre
    cases pre with
    | nil =>
      rw [List.nil_append, scanBF_cons, if_pos (hprev rfl),
        acro3_at_word U ls post hU hls hlsLower hpost1 hpost2]
      simp only []
      have htake : List.take (ls.length + 1) (U :: (ls ++ post)) = U :: ls := by
        have h1 := List.take_left (U :: ls) post
        rw [List.cons_append, List.length_cons] at h1
        exact h1
      rw [htake]
      exact List.mem_cons_self _ _
    | cons c pre' =>
      rw [List.cons_append, scanBF_cons]
      have hlen' : (pre' ++ (U :: (ls ++ post))).length ≤ fuel := by
        simp only [List.length_append, List.length_cons] at hlen ⊢
        omega
      have hstep :
          (U :: ls) ∈ scanBF acro3 fuel (some c) (pre' ++ (U :: (ls ++ post))) := by
        apply ih pre' (some c) hlen'
        · intro hpre'
          subst hpre'
          have hc := hpre c rfl
          simp [bdryOK, hc.1]
        · intro d hd
          cases pre' with
          | nil => simp at hd
          | cons e pre'' =>
            apply hpre
            rw [List.getLast?_cons_cons]
            exact hd
      by_cases hb : bdryOK prev = true
      · rw [if_pos hb]
        rcases hm : acro3 (c :: (pre' ++ (U :: (ls ++ post)))) with _ | k
        · simp only []
          exact hstep
        · simp only []
          have hlast : ∃ lc, (c :: pre').getLast? = some lc := by
            cases hl : (c :: pre').getLast? with
            | none => exact absurd (List.getLast?_eq_none_iff.mp hl) (by simp)
            | some lc => exact ⟨lc, rfl⟩
          rcases hlast with ⟨lc, hlc⟩
          rcases hpre lc hlc with ⟨hlcw, hlcd⟩
          have hshape : (c :: (pre' ++ (U :: (ls ++ post)))) =
              (c :: pre') ++ (U :: (ls ++ post)) := by simp
          have hk : k + 1 < (c :: pre').length := by
            by_contra hge
            push_neg at hge
            have hmem : lc ∈ List.take (k + 1) (c :: (pre' ++ (U :: (ls ++ post)))) := by
              have hmem1 : lc ∈ (c :: pre') := List.mem_of_mem_getLast? hlc
              rw [hshape, List.take_append_eq_append_take,
                List.take_of_length_le hge]
              exact List.mem_append_left _ hmem1
            rcases acro3_chars _ k hm lc hmem with hw | hd
            · exact absurd hw (by simp [hlcw])
            · exact absurd hd hlcd
          have hpre2 : List.drop (k + 1) (c :: pre') ≠ [] := by
            apply List.length_pos.mp
            rw [List.length_drop]
            omega
          have hdrop : List.drop k (pre' ++ (U :: (ls ++ post))) =
              List.drop (k + 1) (c :: pre') ++ (U :: (ls ++ post)) := by
            rw [← List.drop_succ_cons (a := c) (l := pre' ++ (U :: (ls ++ post))),
              hshape, List.drop_append_eq_append_drop,
              show k + 1 - (c :: pre').length = 0 by omega, List.drop_zero]
          rw [hdrop]
          apply List.mem_cons_of_mem
          apply ih (List.drop (k + 1) (c :: pre')) _ _ _ _
          · have hsub : (List.drop (k + 1) (c :: pre')).length ≤ pre'.length := by
              rw [List.length_drop]
              simp only [List.length_cons]
              omega
            have hlen2 : pre'.length + (U :: (ls ++ post)).length ≤ fuel := by
              have h2 := hlen
              simp only [List.cons_append, List.length_cons, List.length_append] at h2
              simp only [List.length_cons, List.length_append]
              omega
            rw [List.length_append]
            omega
          · intro hp
            exact absurd hp hpre2
          · intro d hd
            apply hpre
            conv_lhs =>
              rw [← List.take_append_drop (k + 1) (c :: pre')]
            rw [List.getLast?_append, hd, Option.or_some]
      · rw [if_neg hb]
        exact hstep

end PaperMirror

namespace PaperMirror

theorem mem_addUniq_self (l : List Str) (x : Str) : x ∈ addUniq l x := by
  rw [addUniq]
  split
  · assumption
  · simp

theorem mem_addUniq_of_mem (l : List Str) (x a : Str) (h : a ∈ l) :
    a ∈ addUniq l x := by
  rw [addUniq]
  split
  · exact h
  · exact List.mem_append_left _ h

theorem mem_foldl_acroAdd_of_mem_acc : ∀ (ms acc : List Str) (a : Str),
    a ∈ acc → a ∈ ms.foldl acroAdd acc := by
  intro ms
  induction ms with
  | nil => intro acc a h; exact h
  | cons m0 ms ih =>
    intro acc a h
    rw [List.foldl_cons]
    apply ih
    rw [acroAdd]
    split
    · exact mem_addUniq_of_mem _ _ _ h
    · exact h

theorem mem_foldl_acroAdd : ∀ (ms acc : List Str) (m : Str), m ∈ ms →
    2 ≤ m.length → ¬ m ∈ ACRONYM_STOPLIST → m ∈ ms.foldl acroAdd acc := by
  intro ms
  induction ms with
  | nil => intro acc m h _ _; simp at h
  | cons m0 ms ih =>
    intro acc m hm hlen hstop
    rcases List.mem_cons.mp hm with h | h
    · subst h
      rw [List.foldl_cons]
      apply mem_foldl_acroAdd_of_mem_acc
      rw [acroAdd, if_pos ⟨hlen, hstop⟩]
      exact mem_addUniq_self _ _
    · rw [List.foldl_cons]
      exact ih _ m h hlen hstop

theorem mem_extractAcronyms_scan3 (text m : Str)
    (hm : m ∈ scanB acro3 none text) (hlen : 2 ≤ m.length)
    (hstop : ¬ m ∈ ACRONYM_STOPLIST) : m ∈ extractAcronyms text := by
  show m ∈ (scanB acro3 none text).foldl acroAdd
    ((scanB acro2 none text).foldl acroAdd
      ((scanB acro1 none text).foldl acroAdd []))
  exact mem_foldl_acroAdd _ _ _ hm hlen hstop

end PaperMirror

/-- C10: extractAcronyms includes every ordinary capitalized English word of
the text (an uppercase letter followed by one or more lowercase letters,
standing between a non-word left context that is not a hyphen and a right
context that does not continue the word), unless it is one of the nine
stoplisted words; the third pattern of the source admits plain capitalized
words such as "However" even though they are neither all-caps acronyms nor
CamelCase terms. -/
theorem c10_capitalized_word (U : Char) (ls pre post : PaperMirror.Str)
    (hU : U.isUpper = true) (hls : ls ≠ [])
    (hlsLower : ∀ c ∈ ls, c.isLower = true)
    (hstop : ¬ (U :: ls) ∈ PaperMirror.ACRONYM_STOPLIST)
    (hpre : ∀ c, pre.getLast? = some c →
      PaperMirror.isWordChar c = false ∧ c ≠ '-')
    (hpost1 : ∀ d, post.head? = some d → PaperMirror.isWordChar d = false)
    (hpost2 : ∀ e r, post = '-' :: e :: r → (e.isUpper || e.isDigit) = false) :
    (U :: ls) ∈ PaperMirror.extractAcronyms (pre ++ (U :: ls) ++ post) := by
  have hassoc : pre ++ (U :: ls) ++ post = pre ++ (U :: (ls ++ post)) := by
    simp [List.append_assoc]
  rw [hassoc]
  apply PaperMirror.mem_extractAcronyms_scan3
  · exact PaperMirror.scanBF_p3_mem U ls post hU hls hlsLower hpost1 hpost2
      (pre ++ (U :: (ls ++ post))).length pre none le_rfl (fun _ => rfl) hpre
  · have hpos := List.length_pos.mpr hls
    simp only [List.length_cons]
    omega
  · exact hstop

/-- Witness for C10 at a concrete input: the ordinary word "However"
followed by a space and Chinese text is extracted as an acronym. -/
theorem c10_capitalized_word_witness :
    "However".data ∈ PaperMirror.extractAcronyms
      ([] ++ ('H' :: "owever".data) ++ " 研究".data) := by
  have h := c10_capitalized_word 'H' "owever".data [] " 研究".data
    (by decide) (by decide) (by decide) (by decide)
    (fun c hc => Option.noConfusion hc)
    (fun d hd => by
      rw [show (" 研究".data).head? = some ' ' from rfl] at hd
      cases hd
      decide)
    (fun e r hrr => by
      have h2 : some ' ' = some '-' := congrArg List.head? hrr
      exact absurd (Option.some.inj h2) (by decide))
  exact h
